import Mathlib

/-!
# EventQueue `Thunk`: a fixed-capacity container of nullary callables

Verification development for `BLE_EddystoneService/source/EventQueue/Thunk.h`.

The C++ class `eq::Thunk<BufferSize>` owns an inline buffer `_storage` and a
pointer `_vtable` to a table of three operations (`destroy`, `copy`, `call`).
The embedding is a small abstract machine:

* containers live at addresses (`this`, `&other`), so that the self-assignment
  guard `this == &other` and the frame of every operation can be stated;
* the buffer of a container is modelled by the object that currently lives in
  it (its dynamic type, its value and a ghost object identity), or `none`;
* the wrapped callable types are parameters: each one brings its own copy
  constructor, destructor and call operator, acting on an external world `W`;
* a ghost trace records every table operation that is dispatched and every
  object that is constructed, destructed, invoked or overwritten while alive.

The member functions defined in `Thunk.h` (copy constructor, destructor,
`operator=`, `operator()`) are translated from the source, twice: first for
wrapped types whose copy constructor and destructor return normally (`Callable`,
`Thunk.*`), then with their failure (`ThrowingCallable`, `Throwing.Thunk.*`).
`Throwing.run_of_quiet` relates the two: a run along which no copy constructor
and no destructor fails is a run of the first semantics.  The constructors
and the tables are only declared there (their bodies live in
`detail/Thunk.impl.h` and `detail/ThunkVTable*.h`), so they are modelled from
the specification and marked as such.
-/

namespace eq

/-- Address of a container object. -/
abbrev Addr := Nat

/-- Static type of a wrapped callable: the function pointer type `void (*)()`
or the `n`-th class type (functor, closure) of the program. -/
inductive TypeKey where
  | fnptr
  | cls (n : Nat)
  deriving DecidableEq

/-- Identity of a dispatch table: the built-in no-op table or the one table
generated for a callable type. -/
inductive TableRef where
  | noop
  | gen (T : TypeKey)
  deriving DecidableEq

/-- What a callable class type `T` provides: `sizeof(T)`, its copy constructor
`T(const T&)`, its destructor and its call operator.  Values of `T` are drawn
from `V`, side effects act on the world `W`, and a call may raise a failure
`ε` (the state reached when it does is part of the outcome).  This is the
behaviour of the type when its copy constructor and destructor return normally;
`ThrowingCallable` adds their failure. -/
structure Callable (V W ε : Type) where
  size : Nat
  copyCtor : V → W → V × W
  dtor : V → W → W
  callOp : V → W → (V × W) × Option ε

/-- The program around the container: the template argument `BufferSize`,
the size of a function pointer, the nullary functions a pointer value may
designate and the callable class types. -/
structure Env (V W ε : Type) where
  BufferSize : Nat
  fnptrSize : Nat
  functions : V → W → W × Option ε
  classes : Nat → Callable V W ε

/-- The callable behaviour of a static type.  A function pointer is copied
bitwise, has a trivial destructor and calls the function it designates. -/
def Env.typeOf {V W ε : Type} (env : Env V W ε) : TypeKey → Callable V W ε
  | .fnptr =>
    { size := env.fnptrSize
      copyCtor := fun v w => (v, w)
      dtor := fun _ w => w
      callOp := fun v w => ((v, (env.functions v w).1), (env.functions v w).2) }
  | .cls n => env.classes n

/-- An object alive in a container's buffer: dynamic type, value, and a ghost
identity given at construction. -/
structure LiveObj (V : Type) where
  ty : TypeKey
  val : V
  oid : Nat
  deriving DecidableEq

/-- The two data members of `Thunk<BufferSize>`: `_storage` (the object alive
in the buffer, if any) and `_vtable` (`none` is the null pointer). -/
structure Thunk (V : Type) where
  _storage : Option (LiveObj V)
  _vtable : Option TableRef
  deriving DecidableEq

/-- Ghost events. `destroy`, `copy`, `call`: an operation of a table is
dispatched through a container's `_vtable`.  `constructed`, `destructed`,
`invoked`: the constructor, destructor or call operator of a wrapped type ran
on the object `oid` in the buffer of `thunk`.  `clobbered`: an object was
constructed over the still alive object `oid`. -/
inductive Event where
  | destroy (table : TableRef) (thunk : Addr)
  | copy (table : TableRef) (dest src : Addr)
  | call (table : TableRef) (thunk : Addr)
  | constructed (ty : TypeKey) (oid : Nat) (thunk : Addr)
  | destructed (ty : TypeKey) (oid : Nat) (thunk : Addr)
  | invoked (ty : TypeKey) (oid : Nat) (thunk : Addr)
  | clobbered (ty : TypeKey) (oid : Nat) (thunk : Addr)
  deriving DecidableEq

/-- Ways an operation can go wrong.  `misuse`: the client named a container
that is not alive, or constructed one where one is alive.  `undefined`: the
container dereferenced a null `_vtable`, or a table operation reinterpreted a
buffer that holds no object of its type.  `illFormed`: the wrapped type does
not fit in `BufferSize` (rejected when the program is built). -/
inductive Fault where
  | misuse
  | undefined
  | illFormed
  deriving DecidableEq

/-- Machine state: the containers alive, the external world, the ghost trace
and the next fresh object identity. -/
structure Machine (V W : Type) where
  heap : Addr → Option (Thunk V)
  world : W
  trace : List Event
  nextOid : Nat

/-- No container alive, nothing recorded. -/
def Machine.init {V W : Type} (w : W) : Machine V W :=
  { heap := fun _ => none, world := w, trace := [], nextOid := 0 }

/-- Write (or end, with `none`) the container at address `a`. -/
def Machine.store {V W : Type} (m : Machine V W) (a : Addr) (t : Option (Thunk V)) :
    Machine V W :=
  { m with heap := Function.update m.heap a t }

/-- Append an event to the ghost trace. -/
def Machine.emit {V W : Type} (m : Machine V W) (e : Event) : Machine V W :=
  { m with trace := m.trace ++ [e] }

/-- The struct `detail::ThunkVTable<BufferSize>`: three function pointers taking
containers by reference. -/
structure ThunkVTable (V W ε : Type) where
  destroy : Addr → Machine V W → Except Fault (Machine V W)
  copy : Addr → Addr → Machine V W → Except Fault (Machine V W)
  call : Addr → Machine V W → Except Fault (Machine V W × Option ε)

/-- Modelled from the spec: `detail::ThunkVTableGenerator<T, BufferSize>::destroy`
(only forward-declared in `Thunk.h`).  "destroy(container): destruct the `T`
held in container's storage": the buffer is reinterpreted as a `T`, whose
destructor runs; reinterpreting a buffer that holds no live `T` is undefined. -/
def ThunkVTableGenerator.destroy {V W ε : Type} (env : Env V W ε) (T : TypeKey)
    (thunk : Addr) (m : Machine V W) : Except Fault (Machine V W) :=
  match m.heap thunk with
  | none => .error .misuse
  | some th =>
    match th._storage with
    | none => .error .undefined
    | some obj =>
      if obj.ty = T then
        .ok { heap := Function.update m.heap thunk (some { th with _storage := none })
              world := (env.typeOf T).dtor obj.val m.world
              trace := m.trace ++ [Event.destructed T obj.oid thunk]
              nextOid := m.nextOid }
      else .error .undefined

/-- Ghost record of what a placement construction into a buffer overwrites. -/
def clobberEvents {V : Type} (dest : Addr) : Option (LiveObj V) → List Event
  | none => []
  | some old => [Event.clobbered old.ty old.oid dest]

/-- Modelled from the spec: `detail::ThunkVTableGenerator<T, BufferSize>::copy`.
"copy(destination, source): construct a new `T` inside destination's storage
by copying the `T` held in source's storage; set destination's table reference
to this same table."  The construction is a placement construction: it does
not look at what the destination buffer held. -/
def ThunkVTableGenerator.copy {V W ε : Type} (env : Env V W ε) (T : TypeKey)
    (dest src : Addr) (m : Machine V W) : Except Fault (Machine V W) :=
  match m.heap dest, m.heap src with
  | some d, some s =>
    match s._storage with
    | none => .error .undefined
    | some obj =>
      if obj.ty = T then
        .ok { heap := Function.update m.heap dest
                (some { _storage := some ⟨T, ((env.typeOf T).copyCtor obj.val m.world).1, m.nextOid⟩
                        _vtable := some (.gen T) })
              world := ((env.typeOf T).copyCtor obj.val m.world).2
              trace := m.trace ++ clobberEvents dest d._storage
                ++ [Event.constructed T m.nextOid dest]
              nextOid := m.nextOid + 1 }
      else .error .undefined
  | _, _ => .error .misuse

/-- Modelled from the spec: `detail::ThunkVTableGenerator<T, BufferSize>::call`.
"invoke(container): reinterpret the container's storage as `T` and call it,
discarding any result"; a failure of the callable propagates unchanged.  The
call acts on the held object itself (`T&`), so the object may change. -/
def ThunkVTableGenerator.call {V W ε : Type} (env : Env V W ε) (T : TypeKey)
    (thunk : Addr) (m : Machine V W) : Except Fault (Machine V W × Option ε) :=
  match m.heap thunk with
  | none => .error .misuse
  | some th =>
    match th._storage with
    | none => .error .undefined
    | some obj =>
      if obj.ty = T then
        .ok ({ heap := Function.update m.heap thunk
                 (some { th with
                   _storage := some ⟨T, ((env.typeOf T).callOp obj.val m.world).1.1, obj.oid⟩ })
               world := ((env.typeOf T).callOp obj.val m.world).1.2
               trace := m.trace ++ [Event.invoked T obj.oid thunk]
               nextOid := m.nextOid },
             ((env.typeOf T).callOp obj.val m.world).2)
      else .error .undefined

/-- The private static member `static void empty_thunk() { }`: it does nothing. -/
def Thunk.empty_thunk {W : Type} (w : W) : W := w

/-- Modelled from the spec: `destroy` of the built-in no-op table ("`copy`/`destroy`
are trivial"): there is no object to destruct. -/
def NoopTable.destroy {V W : Type} (thunk : Addr) (m : Machine V W) :
    Except Fault (Machine V W) :=
  match m.heap thunk with
  | none => .error .misuse
  | some _ => .ok m

/-- Modelled from the spec: `copy` of the built-in no-op table.  It is trivial in
that no object is constructed; as every table's `copy` it sets the destination's
table reference to this same table. -/
def NoopTable.copy {V W : Type} (dest src : Addr) (m : Machine V W) :
    Except Fault (Machine V W) :=
  match m.heap dest, m.heap src with
  | some d, some _ => .ok (m.store dest (some { d with _vtable := some .noop }))
  | _, _ => .error .misuse

/-- Modelled from the spec: `invoke` of the built-in no-op table "does nothing". -/
def NoopTable.call {V W ε : Type} (thunk : Addr) (m : Machine V W) :
    Except Fault (Machine V W × Option ε) :=
  match m.heap thunk with
  | none => .error .misuse
  | some _ => .ok ({ m with world := Thunk.empty_thunk m.world }, none)

/-- Modelled from the spec: the table a table reference designates: the built-in
no-op table, or `ThunkVTableGenerator<T, BufferSize>::vtable`, one per type. -/
def Env.vtable {V W ε : Type} (env : Env V W ε) : TableRef → ThunkVTable V W ε
  | .noop =>
    { destroy := NoopTable.destroy, copy := NoopTable.copy, call := NoopTable.call }
  | .gen T =>
    { destroy := ThunkVTableGenerator.destroy env T
      copy := ThunkVTableGenerator.copy env T
      call := ThunkVTableGenerator.call env T }

/-- The expression `p->destroy(thunk)` for a table pointer `p`. -/
def vtable_destroy {V W ε : Type} (env : Env V W ε) (p : Option TableRef) (thunk : Addr)
    (m : Machine V W) : Except Fault (Machine V W) :=
  match p with
  | none => .error .undefined
  | some t => (env.vtable t).destroy thunk (m.emit (Event.destroy t thunk))

/-- The expression `p->copy(dest, src)` for a table pointer `p`. -/
def vtable_copy {V W ε : Type} (env : Env V W ε) (p : Option TableRef) (dest src : Addr)
    (m : Machine V W) : Except Fault (Machine V W) :=
  match p with
  | none => .error .undefined
  | some t => (env.vtable t).copy dest src (m.emit (Event.copy t dest src))

/-- The expression `p->call(thunk)` for a table pointer `p`. -/
def vtable_call {V W ε : Type} (env : Env V W ε) (p : Option TableRef) (thunk : Addr)
    (m : Machine V W) : Except Fault (Machine V W × Option ε) :=
  match p with
  | none => .error .undefined
  | some t => (env.vtable t).call thunk (m.emit (Event.call t thunk))

/-- Modelled from the spec: the default constructor `Thunk()` (declared in `Thunk.h`, its
body is elsewhere): "produces an empty container whose invocation does
nothing"; "a default-constructed container points to a built-in no-op table". -/
def Thunk.ctor_default {V W : Type} (this : Addr) (m : Machine V W) :
    Except Fault (Machine V W) :=
  match m.heap this with
  | some _ => .error .misuse
  | none => .ok (m.store this (some { _storage := none, _vtable := some .noop }))

/-- Modelled from the spec: the common effect of the two converting constructors:
"copy-constructs `f` into storage, binds the table for `decltype(f)`", provided
the type fits in the buffer. -/
def Thunk.wrap {V W ε : Type} (env : Env V W ε) (T : TypeKey) (f : V) (this : Addr)
    (m : Machine V W) : Except Fault (Machine V W) :=
  if (env.typeOf T).size ≤ env.BufferSize then
    match m.heap this with
    | some _ => .error .misuse
    | none =>
      .ok { heap := Function.update m.heap this
              (some { _storage := some ⟨T, ((env.typeOf T).copyCtor f m.world).1, m.nextOid⟩
                      _vtable := some (.gen T) })
            world := ((env.typeOf T).copyCtor f m.world).2
            trace := m.trace ++ [Event.constructed T m.nextOid this]
            nextOid := m.nextOid + 1 }
  else .error .illFormed

/-- Modelled from the spec: `template<typename F> Thunk(const F& f)` for the class
type number `n`. -/
def Thunk.ctor_callable {V W ε : Type} (env : Env V W ε) (n : Nat) (f : V) (this : Addr)
    (m : Machine V W) : Except Fault (Machine V W) :=
  Thunk.wrap env (.cls n) f this m

/-- Modelled from the spec: `Thunk(void (*f)())`, which also receives references to
functions once they have decayed to pointers. -/
def Thunk.ctor_function {V W ε : Type} (env : Env V W ε) (f : V) (this : Addr)
    (m : Machine V W) : Except Fault (Machine V W) :=
  Thunk.wrap env .fnptr f this m

/-- `Thunk(const Thunk& other) : _storage(), _vtable() { other._vtable->copy(*this, other); }` -/
def Thunk.ctor_copy {V W ε : Type} (env : Env V W ε) (this other : Addr)
    (m : Machine V W) : Except Fault (Machine V W) :=
  match m.heap this, m.heap other with
  | none, some src =>
    vtable_copy env src._vtable this other
      (m.store this (some { _storage := none, _vtable := none }))
  | _, _ => .error .misuse

/-- `~Thunk() { _vtable->destroy(*this); }`, after which the container is gone. -/
def Thunk.dtor {V W ε : Type} (env : Env V W ε) (this : Addr)
    (m : Machine V W) : Except Fault (Machine V W) :=
  match m.heap this with
  | none => .error .misuse
  | some th =>
    match vtable_destroy env th._vtable this m with
    | .error e => .error e
    | .ok m1 => .ok (m1.store this none)

/-- `operator=`: return at once when `this == &other`; otherwise
`_vtable->destroy(*this); other._vtable->copy(*this, other);`. -/
def Thunk.operator_assign {V W ε : Type} (env : Env V W ε) (this other : Addr)
    (m : Machine V W) : Except Fault (Machine V W) :=
  if this = other then .ok m
  else
    match m.heap this with
    | none => .error .misuse
    | some th =>
      match vtable_destroy env th._vtable this m with
      | .error e => .error e
      | .ok m1 =>
        match m1.heap other with
        | none => .error .misuse
        | some src => vtable_copy env src._vtable this other m1

/-- `void operator()() const { _vtable->call(*this); }` -/
def Thunk.operator_call {V W ε : Type} (env : Env V W ε) (this : Addr)
    (m : Machine V W) : Except Fault (Machine V W × Option ε) :=
  match m.heap this with
  | none => .error .misuse
  | some th => vtable_call env th._vtable this m

/-- The public operations of the container, as a client performs them. -/
inductive Op (V : Type) where
  | ctor_default (this : Addr)
  | ctor_callable (n : Nat) (f : V) (this : Addr)
  | ctor_function (f : V) (this : Addr)
  | ctor_copy (this other : Addr)
  | operator_assign (this other : Addr)
  | operator_call (this : Addr)
  | dtor (this : Addr)

/-- One operation of a client.  A failure raised by an invocation is caught by
the client: the machine goes on from the state the callable left. -/
def step {V W ε : Type} (env : Env V W ε) : Op V → Machine V W → Except Fault (Machine V W)
  | .ctor_default a, m => Thunk.ctor_default a m
  | .ctor_callable n f a, m => Thunk.ctor_callable env n f a m
  | .ctor_function f a, m => Thunk.ctor_function env f a m
  | .ctor_copy a b, m => Thunk.ctor_copy env a b m
  | .operator_assign a b, m => Thunk.operator_assign env a b m
  | .operator_call a, m =>
    match Thunk.operator_call env a m with
    | .error e => .error e
    | .ok r => .ok r.1
  | .dtor a, m => Thunk.dtor env a m

/-- A finite sequence of operations, run from left to right. -/
def run {V W ε : Type} (env : Env V W ε) : List (Op V) → Machine V W → Except Fault (Machine V W)
  | [], m => .ok m
  | op :: ops, m =>
    match step env op m with
    | .error e => .error e
    | .ok m1 => run env ops m1

/-! ## Sample program used to evaluate the definitions on concrete inputs -/

/-- Sample world: an external call counter and a count of destructor runs. -/
structure DemoWorld where
  counter : Nat
  dtors : Nat
  deriving DecidableEq

/-- Sample callable class types.
* class 0: counts calls in the external counter, counts in its own state how
  many times it was copied, and counts destructor runs;
* class 1: adds its own state to the external counter; its copy constructor
  increments the state of the copy;
* class 2: a callable with mutable internal state only: each call increments it;
* class 3: as class 0, but 64 bytes wide;
* any other class: a callable that fails with `"boom"`. -/
def demoClasses : Nat → Callable Nat DemoWorld String
  | 0 =>
    { size := 8
      copyCtor := fun v w => (v + 1, w)
      dtor := fun _ w => { w with dtors := w.dtors + 1 }
      callOp := fun v w => ((v, { w with counter := w.counter + 1 }), none) }
  | 1 =>
    { size := 4
      copyCtor := fun v w => (v + 1, w)
      dtor := fun _ w => w
      callOp := fun v w => ((v, { w with counter := w.counter + v }), none) }
  | 2 =>
    { size := 4
      copyCtor := fun v w => (v, w)
      dtor := fun _ w => w
      callOp := fun v w => ((v + 1, w), none) }
  | 3 =>
    { size := 64
      copyCtor := fun v w => (v + 1, w)
      dtor := fun _ w => { w with dtors := w.dtors + 1 }
      callOp := fun v w => ((v, { w with counter := w.counter + 1 }), none) }
  | _ =>
    { size := 1
      copyCtor := fun v w => (v, w)
      dtor := fun _ w => w
      callOp := fun v w => ((v, w), some "boom") }

/-- Sample program with `BufferSize = 32`; the function designated by the
pointer value `v` adds `v` to the external counter. -/
def demoEnv : Env Nat DemoWorld String :=
  { BufferSize := 32
    fnptrSize := 8
    functions := fun v w => ({ w with counter := w.counter + v }, none)
    classes := demoClasses }

/-- Sample state: container 0 is bound to a class 0 value, container 1 to a
class 2 value, container 2 is empty. -/
def demoMachine : Machine Nat DemoWorld :=
  { heap := fun a =>
      match a with
      | 0 => some { _storage := some ⟨.cls 0, 5, 0⟩, _vtable := some (.gen (.cls 0)) }
      | 1 => some { _storage := some ⟨.cls 2, 7, 1⟩, _vtable := some (.gen (.cls 2)) }
      | 2 => some { _storage := none, _vtable := some .noop }
      | _ => none
    world := { counter := 0, dtors := 0 }
    trace := []
    nextOid := 2 }

/-- The two states of a container in the specification's state machine. -/
inductive State where
  | EMPTY
  | BOUND (T : TypeKey)
  deriving DecidableEq

/-- State of a container: `EMPTY` when its table is the no-op table and its
buffer holds nothing, `BOUND T` when its table is the one generated for `T` and
its buffer holds a live `T`; any other combination is no state at all. -/
def Thunk.state {V : Type} (th : Thunk V) : Option State :=
  match th._vtable, th._storage with
  | some .noop, none => some .EMPTY
  | some (.gen T), some obj => if obj.ty = T then some (.BOUND T) else none
  | _, _ => none

/-- The copies of the counting scenario: for `i < N`, container `i + 1` is
copy-constructed from the earlier container `src i`. -/
def copiesOps {V : Type} (src : Nat → Addr) (N : Nat) : List (Op V) :=
  (List.range N).map fun i => Op.ctor_copy (i + 1) (src i)

/-- The invocations of the counting scenario: containers `0, ..., N` are each
invoked once. -/
def callsOps {V : Type} (N : Nat) : List (Op V) :=
  (List.range (N + 1)).map Op.operator_call

/-- Containers `0, ..., k` are bound to values of class `n`; no other container
is alive. -/
def AllBound {V W : Type} (n k : Nat) (m : Machine V W) : Prop :=
  (∀ a, a ≤ k → ∃ v o,
      m.heap a = some { _storage := some ⟨.cls n, v, o⟩, _vtable := some (.gen (.cls n)) })
    ∧ ∀ a, k < a → m.heap a = none

/-- Identity of the object alive in the buffer of a container, if there is a
container and its buffer holds one. -/
def objOf {V : Type} : Option (Thunk V) → Option Nat
  | some th => th._storage.map LiveObj.oid
  | none => none

/-- Identity of the object alive in the buffer of the container at `a`, if the
container is alive and its buffer holds one. -/
def slotOf {V : Type} (heap : Addr → Option (Thunk V)) (a : Addr) : Option Nat :=
  objOf (heap a)

/-- The event is the destruction of the object `oid`. -/
def Event.destructs (oid : Nat) : Event → Bool
  | .destructed _ o _ => decide (o = oid)
  | _ => false

/-- The event is the construction of the object `oid`. -/
def Event.constructs (oid : Nat) : Event → Bool
  | .constructed _ o _ => decide (o = oid)
  | _ => false

/-- The event records a construction over a still alive object. -/
def Event.isClobber : Event → Bool
  | .clobbered _ _ _ => true
  | _ => false

/-- The event is the dispatch of a table operation. -/
def Event.isDispatch : Event → Bool
  | .destroy _ _ => true
  | .copy _ _ _ => true
  | .call _ _ => true
  | _ => false

/-- How many times the destructor ran on the object `oid`. -/
def destructions (oid : Nat) (tr : List Event) : Nat :=
  tr.countP (Event.destructs oid)

/-- How many times the object `oid` was constructed. -/
def constructions (oid : Nat) (tr : List Event) : Nat :=
  tr.countP (Event.constructs oid)

/-- Object discipline, stated on the identities `sl` of the objects alive per
container, the trace and the next fresh identity: alive objects carry distinct
identities already handed out; no object was destructed twice; the destructed
objects are exactly those handed out and no longer alive; each identity handed
out was constructed once; nothing was constructed over a live object. -/
structure Inv0 (sl : Addr → Option Nat) (tr : List Event) (nx : Nat) : Prop where
  fresh : ∀ a o, sl a = some o → o < nx
  inj : ∀ a b o, sl a = some o → sl b = some o → a = b
  once : ∀ o, destructions o tr ≤ 1
  dead : ∀ o, destructions o tr = 1 ↔ (o < nx ∧ ∀ a, sl a ≠ some o)
  born : ∀ o, constructions o tr = if o < nx then 1 else 0
  clean : ∀ e ∈ tr, Event.isClobber e = false

/-- Invariant of the machine: every container alive is `EMPTY` or `BOUND`, and
the objects obey the discipline `Inv0`. -/
structure Inv {V W : Type} (m : Machine V W) : Prop where
  wf : ∀ a th, m.heap a = some th → th.state ≠ none
  obj : Inv0 (slotOf m.heap) m.trace m.nextOid

/-- A sample client: a class 0 callable is wrapped in container 0, container 1
is copy-constructed from it, container 2 is default-constructed, container 2 is
assigned from container 1, container 0 is assigned from itself, container 1 is
assigned from a further empty container 3, containers are invoked, and all four
containers are destructed. -/
def demoOps : List (Op Nat) :=
  [ .ctor_callable 0 5 0, .ctor_copy 1 0, .ctor_default 2, .operator_assign 2 1,
    .operator_assign 0 0, .ctor_default 3, .operator_assign 1 3, .operator_call 0,
    .operator_call 1, .operator_call 2, .dtor 0, .dtor 1, .dtor 2, .dtor 3 ]

/-- What a client writes where a nullary function is wanted: a pointer to the
function, or a reference to it.  A function is named here by the pointer value
that designates it. -/
inductive FunctionArg (V : Type) where
  | pointer (p : V)
  | reference (g : V)

/-- Modelled from the spec: "a dedicated path decays a function reference into a
function pointer value before storing it".  A pointer is passed as it is; a
reference to `g` decays to the pointer that designates `g`. -/
def FunctionArg.decay {V : Type} : FunctionArg V → V
  | .pointer p => p
  | .reference g => g

/-- Modelled from the spec: construction of a container from a function argument.
`Thunk(void (*f)())` receives both kinds ("Allow references to functions to
gracefully decay into pointer to function"), on the decayed pointer. -/
def Thunk.ctor_function_arg {V W ε : Type} (env : Env V W ε) (arg : FunctionArg V)
    (this : Addr) (m : Machine V W) : Except Fault (Machine V W) :=
  Thunk.ctor_function env arg.decay this m

/-- First statement of `operator=` past the guard: `_vtable->destroy(*this);`. -/
def Thunk.operator_assign_destroy {V W ε : Type} (env : Env V W ε) (this : Addr)
    (m : Machine V W) : Except Fault (Machine V W) :=
  match m.heap this with
  | none => .error .misuse
  | some th => vtable_destroy env th._vtable this m

/-- Second statement of `operator=` past the guard:
`other._vtable->copy(*this, other);`. -/
def Thunk.operator_assign_copy {V W ε : Type} (env : Env V W ε) (this other : Addr)
    (m : Machine V W) : Except Fault (Machine V W) :=
  match m.heap other with
  | none => .error .misuse
  | some src => vtable_copy env src._vtable this other m

/-- A second sample program: its one class type tracks its live instances in
the external counter.  The copy constructor raises the counter and gives the
copy the new count as its state; the destructor lowers the counter (and counts
its runs); the call does nothing. -/
def trackedEnv : Env Nat DemoWorld String :=
  { BufferSize := 32
    fnptrSize := 8
    functions := fun _ w => (w, none)
    classes := fun _ =>
      { size := 4
        copyCtor := fun _ w => (w.counter + 1, { w with counter := w.counter + 1 })
        dtor := fun _ w => { counter := w.counter - 1, dtors := w.dtors + 1 }
        callOp := fun v w => ((v, w), none) } }

/-- A state of the second sample program: containers 0 and 1 hold the instances
numbered 1 and 2, and two instances are alive. -/
def trackedMachine : Machine Nat DemoWorld :=
  { heap := fun a =>
      match a with
      | 0 => some { _storage := some ⟨.cls 0, 1, 0⟩, _vtable := some (.gen (.cls 0)) }
      | 1 => some { _storage := some ⟨.cls 0, 2, 1⟩, _vtable := some (.gen (.cls 0)) }
      | _ => none
    world := { counter := 2, dtors := 0 }
    trace := []
    nextOid := 2 }

/-! ## Copy constructors and destructors that fail

`Callable` gives the behaviour of a wrapped type when its copy constructor and
its destructor return normally.  The definitions below add their failure: the
member functions of `Thunk.h` have no handler, so a failure leaves them at the
point where it is raised. -/

/-- A callable class type whose copy constructor and destructor may fail.
`copyFails v w = some e`: the copy constructor, run on `v` in the world `w`,
raises `e`; the world is then `(copyCtor v w).2` and no object is constructed.
`dtorFails v w = some e`: the destructor, run on `v` in `w`, raises `e`; the
world is then `dtor v w` and the object is gone all the same. -/
structure ThrowingCallable (V W ε : Type) where
  size : Nat
  copyCtor : V → W → V × W
  copyFails : V → W → Option ε
  dtor : V → W → W
  dtorFails : V → W → Option ε
  callOp : V → W → (V × W) × Option ε

/-- The behaviour of the type when neither its copy constructor nor its
destructor fails. -/
def ThrowingCallable.plain {V W ε : Type} (c : ThrowingCallable V W ε) : Callable V W ε :=
  { size := c.size, copyCtor := c.copyCtor, dtor := c.dtor, callOp := c.callOp }

/-- The program around the container, with class types that may fail. -/
structure ThrowingEnv (V W ε : Type) where
  BufferSize : Nat
  fnptrSize : Nat
  functions : V → W → W × Option ε
  classes : Nat → ThrowingCallable V W ε

/-- The same program, read without the failures. -/
def ThrowingEnv.plain {V W ε : Type} (env : ThrowingEnv V W ε) : Env V W ε :=
  { BufferSize := env.BufferSize
    fnptrSize := env.fnptrSize
    functions := env.functions
    classes := fun n => (env.classes n).plain }

/-- The callable behaviour of a static type.  Copying and destroying a function
pointer never fails. -/
def ThrowingEnv.typeOf {V W ε : Type} (env : ThrowingEnv V W ε) :
    TypeKey → ThrowingCallable V W ε
  | .fnptr =>
    { size := env.fnptrSize
      copyCtor := fun v w => (v, w)
      copyFails := fun _ _ => none
      dtor := fun _ w => w
      dtorFails := fun _ _ => none
      callOp := fun v w => ((v, (env.functions v w).1), (env.functions v w).2) }
  | .cls n => env.classes n

/-- The struct `detail::ThunkVTable<BufferSize>` again; each operation now also
reports the failure it raised, if any, with the state it left. -/
structure ThrowingVTable (V W ε : Type) where
  destroy : Addr → Machine V W → Except Fault (Machine V W × Option ε)
  copy : Addr → Addr → Machine V W → Except Fault (Machine V W × Option ε)
  call : Addr → Machine V W → Except Fault (Machine V W × Option ε)

/-- Modelled from the spec: `detail::ThunkVTableGenerator<T, BufferSize>::destroy`,
"destruct the `T` held in container's storage", with a destructor that may
raise a failure: the object is gone and the failure propagates. -/
def Throwing.ThunkVTableGenerator.destroy {V W ε : Type} (env : ThrowingEnv V W ε)
    (T : TypeKey) (thunk : Addr) (m : Machine V W) :
    Except Fault (Machine V W × Option ε) :=
  match m.heap thunk with
  | none => .error .misuse
  | some th =>
    match th._storage with
    | none => .error .undefined
    | some obj =>
      if obj.ty = T then
        .ok ({ heap := Function.update m.heap thunk (some { th with _storage := none })
               world := (env.typeOf T).dtor obj.val m.world
               trace := m.trace ++ [Event.destructed T obj.oid thunk]
               nextOid := m.nextOid },
             (env.typeOf T).dtorFails obj.val m.world)
      else .error .undefined

/-- Modelled from the spec: `detail::ThunkVTableGenerator<T, BufferSize>::copy`,
"copy-constructs `T` from the source's held `T` into the destination's storage,
then sets destination's table reference", with a copy constructor that may raise
a failure: then nothing is constructed, the table reference is not set, and the
failure propagates. -/
def Throwing.ThunkVTableGenerator.copy {V W ε : Type} (env : ThrowingEnv V W ε)
    (T : TypeKey) (dest src : Addr) (m : Machine V W) :
    Except Fault (Machine V W × Option ε) :=
  match m.heap dest, m.heap src with
  | some d, some s =>
    match s._storage with
    | none => .error .undefined
    | some obj =>
      if obj.ty = T then
        match (env.typeOf T).copyFails obj.val m.world with
        | some e =>
          .ok ({ heap := m.heap
                 world := ((env.typeOf T).copyCtor obj.val m.world).2
                 trace := m.trace
                 nextOid := m.nextOid }, some e)
        | none =>
          .ok ({ heap := Function.update m.heap dest
                   (some { _storage := some ⟨T, ((env.typeOf T).copyCtor obj.val m.world).1,
                                             m.nextOid⟩
                           _vtable := some (.gen T) })
                 world := ((env.typeOf T).copyCtor obj.val m.world).2
                 trace := m.trace ++ clobberEvents dest d._storage
                   ++ [Event.constructed T m.nextOid dest]
                 nextOid := m.nextOid + 1 }, none)
      else .error .undefined
  | _, _ => .error .misuse

/-- Modelled from the spec: the tables, with failures: the no-op table's operations
do nothing and never fail; `call` is as before, it already reports the failure
of the held callable. -/
def ThrowingEnv.vtable {V W ε : Type} (env : ThrowingEnv V W ε) :
    TableRef → ThrowingVTable V W ε
  | .noop =>
    { destroy := fun thunk m =>
        match NoopTable.destroy thunk m with
        | .error f => .error f
        | .ok m1 => .ok (m1, none)
      copy := fun dest src m =>
        match NoopTable.copy dest src m with
        | .error f => .error f
        | .ok m1 => .ok (m1, none)
      call := NoopTable.call }
  | .gen T =>
    { destroy := Throwing.ThunkVTableGenerator.destroy env T
      copy := Throwing.ThunkVTableGenerator.copy env T
      call := ThunkVTableGenerator.call env.plain T }

/-- The expression `p->destroy(thunk)` for a table pointer `p`. -/
def Throwing.vtable_destroy {V W ε : Type} (env : ThrowingEnv V W ε) (p : Option TableRef)
    (thunk : Addr) (m : Machine V W) : Except Fault (Machine V W × Option ε) :=
  match p with
  | none => .error .undefined
  | some t => (env.vtable t).destroy thunk (m.emit (Event.destroy t thunk))

/-- The expression `p->copy(dest, src)` for a table pointer `p`. -/
def Throwing.vtable_copy {V W ε : Type} (env : ThrowingEnv V W ε) (p : Option TableRef)
    (dest src : Addr) (m : Machine V W) : Except Fault (Machine V W × Option ε) :=
  match p with
  | none => .error .undefined
  | some t => (env.vtable t).copy dest src (m.emit (Event.copy t dest src))

/-- The expression `p->call(thunk)` for a table pointer `p`. -/
def Throwing.vtable_call {V W ε : Type} (env : ThrowingEnv V W ε) (p : Option TableRef)
    (thunk : Addr) (m : Machine V W) : Except Fault (Machine V W × Option ε) :=
  match p with
  | none => .error .undefined
  | some t => (env.vtable t).call thunk (m.emit (Event.call t thunk))

/-- Modelled from the spec: the converting constructors, "copy-constructs `f` into
storage, binds the table for `decltype(f)`"; when the copy constructor fails the
constructor is left by the failure and no container comes to exist. -/
def Throwing.Thunk.wrap {V W ε : Type} (env : ThrowingEnv V W ε) (T : TypeKey) (f : V)
    (this : Addr) (m : Machine V W) : Except Fault (Machine V W × Option ε) :=
  if (env.typeOf T).size ≤ env.BufferSize then
    match m.heap this with
    | some _ => .error .misuse
    | none =>
      match (env.typeOf T).copyFails f m.world with
      | some e =>
        .ok ({ heap := m.heap
               world := ((env.typeOf T).copyCtor f m.world).2
               trace := m.trace
               nextOid := m.nextOid }, some e)
      | none =>
        .ok ({ heap := Function.update m.heap this
                 (some { _storage := some ⟨T, ((env.typeOf T).copyCtor f m.world).1, m.nextOid⟩
                         _vtable := some (.gen T) })
               world := ((env.typeOf T).copyCtor f m.world).2
               trace := m.trace ++ [Event.constructed T m.nextOid this]
               nextOid := m.nextOid + 1 }, none)
  else .error .illFormed

/-- `Thunk(const Thunk& other) : _storage(), _vtable() { other._vtable->copy(*this, other); }`
When the copy raises a failure the constructor is left by it: the container
never comes to exist. -/
def Throwing.Thunk.ctor_copy {V W ε : Type} (env : ThrowingEnv V W ε) (this other : Addr)
    (m : Machine V W) : Except Fault (Machine V W × Option ε) :=
  match m.heap this, m.heap other with
  | none, some src =>
    match Throwing.vtable_copy env src._vtable this other
        (m.store this (some { _storage := none, _vtable := none })) with
    | .error f => .error f
    | .ok (m1, none) => .ok (m1, none)
    | .ok (m1, some e) => .ok (m1.store this none, some e)
  | _, _ => .error .misuse

/-- `~Thunk() { _vtable->destroy(*this); }`: the container is gone afterwards,
also when `destroy` raised a failure. -/
def Throwing.Thunk.dtor {V W ε : Type} (env : ThrowingEnv V W ε) (this : Addr)
    (m : Machine V W) : Except Fault (Machine V W × Option ε) :=
  match m.heap this with
  | none => .error .misuse
  | some th =>
    match Throwing.vtable_destroy env th._vtable this m with
    | .error f => .error f
    | .ok (m1, r) => .ok (m1.store this none, r)

/-- `operator=`: return at once when `this == &other`; otherwise
`_vtable->destroy(*this); other._vtable->copy(*this, other);`.  There is no
handler: a failure raised by `destroy` skips the copy, a failure raised by
`copy` leaves what `destroy` left. -/
def Throwing.Thunk.operator_assign {V W ε : Type} (env : ThrowingEnv V W ε)
    (this other : Addr) (m : Machine V W) : Except Fault (Machine V W × Option ε) :=
  if this = other then .ok (m, none)
  else
    match m.heap this with
    | none => .error .misuse
    | some th =>
      match Throwing.vtable_destroy env th._vtable this m with
      | .error f => .error f
      | .ok (m1, some e) => .ok (m1, some e)
      | .ok (m1, none) =>
        match m1.heap other with
        | none => .error .misuse
        | some src => Throwing.vtable_copy env src._vtable this other m1

/-- `void operator()() const { _vtable->call(*this); }` -/
def Throwing.Thunk.operator_call {V W ε : Type} (env : ThrowingEnv V W ε) (this : Addr)
    (m : Machine V W) : Except Fault (Machine V W × Option ε) :=
  match m.heap this with
  | none => .error .misuse
  | some th => Throwing.vtable_call env th._vtable this m

/-- The operation is an invocation. -/
def Op.isCall {V : Type} : Op V → Bool
  | .operator_call _ => true
  | _ => false

/-- One operation of a client, with the failure it raised, if any. -/
def Throwing.step {V W ε : Type} (env : ThrowingEnv V W ε) :
    Op V → Machine V W → Except Fault (Machine V W × Option ε)
  | .ctor_default a, m =>
    match Thunk.ctor_default a m with
    | .error f => .error f
    | .ok m1 => .ok (m1, none)
  | .ctor_callable n f a, m => Throwing.Thunk.wrap env (.cls n) f a m
  | .ctor_function f a, m => Throwing.Thunk.wrap env .fnptr f a m
  | .ctor_copy a b, m => Throwing.Thunk.ctor_copy env a b m
  | .operator_assign a b, m => Throwing.Thunk.operator_assign env a b m
  | .operator_call a, m => Throwing.Thunk.operator_call env a m
  | .dtor a, m => Throwing.Thunk.dtor env a m

/-- A finite sequence of operations, run from left to right; the client catches
every failure and goes on from the state it left. -/
def Throwing.run {V W ε : Type} (env : ThrowingEnv V W ε) :
    List (Op V) → Machine V W → Except Fault (Machine V W)
  | [], m => .ok m
  | op :: ops, m =>
    match Throwing.step env op m with
    | .error f => .error f
    | .ok r => Throwing.run env ops r.1

/-- No copy constructor and no destructor of a wrapped type fails along the
run: every operation other than an invocation ends without a failure. -/
def Throwing.quiet {V W ε : Type} (env : ThrowingEnv V W ε) :
    List (Op V) → Machine V W → Bool
  | [], _ => true
  | op :: ops, m =>
    match Throwing.step env op m with
    | .error _ => true
    | .ok r => (op.isCall || r.2.isNone) && Throwing.quiet env ops r.1

/-- A third sample program.  Class 0 counts its destructor runs and never fails.
Every other class has a copy constructor that increments the state of the copy
and fails with `"copy failed"` when the value to copy is not 0: wrapping the
value 0 succeeds, copying the wrapped value fails. -/
def throwEnv : ThrowingEnv Nat DemoWorld String :=
  { BufferSize := 32
    fnptrSize := 8
    functions := fun v w => ({ w with counter := w.counter + v }, none)
    classes := fun n =>
      match n with
      | 0 =>
        { size := 8
          copyCtor := fun v w => (v + 1, w)
          copyFails := fun _ _ => none
          dtor := fun _ w => { w with dtors := w.dtors + 1 }
          dtorFails := fun _ _ => none
          callOp := fun v w => ((v, { w with counter := w.counter + 1 }), none) }
      | _ =>
        { size := 4
          copyCtor := fun v w => (v + 1, w)
          copyFails := fun v _ => if v = 0 then none else some "copy failed"
          dtor := fun _ w => { w with dtors := w.dtors + 1 }
          dtorFails := fun _ _ => none
          callOp := fun v w => ((v, w), none) } }

/-! ## Copy assignment -/

/-- C2. Self-assignment `c = c` returns at the guard, whatever `c` is: the
machine (table reference and held value of `c`, world, record of dispatched
table operations) is unchanged, so no `destroy` and no `copy` ran, and a later
invocation or destruction of `c` does exactly what it did before; when `c` is
bound, its later destruction destructs the held object, once. -/
theorem operator_assign_self {V W ε : Type} (env : Env V W ε) (c : Addr) (m : Machine V W) :
    ∃ m1, Thunk.operator_assign env c c m = .ok m1 ∧ m1 = m
      ∧ m1.heap c = m.heap c ∧ m1.trace = m.trace ∧ m1.world = m.world
      ∧ Thunk.operator_call env c m1 = Thunk.operator_call env c m
      ∧ Thunk.dtor env c m1 = Thunk.dtor env c m
      ∧ ∀ T v o, m.heap c = some { _storage := some ⟨T, v, o⟩, _vtable := some (.gen T) } →
          ∃ m2, Thunk.dtor env c m1 = .ok m2
            ∧ m2.trace = m.trace ++ [Event.destroy (.gen T) c, Event.destructed T o c] := by
  refine ⟨m, ?_, rfl, rfl, rfl, rfl, rfl, rfl, ?_⟩
  · simp [Thunk.operator_assign]
  · intro T v o h
    simp [Thunk.dtor, vtable_destroy, Env.vtable, ThunkVTableGenerator.destroy, Machine.emit,
      Machine.store, h]

/-- C1. Assignment between distinct bound containers: the `destroy` of the
target's old table runs once, on the target's old object, then the `copy` of the
source's table constructs the new object; the four recorded events are all that
happened, and the source is untouched. -/
theorem operator_assign_bound_bound {V W ε : Type} (env : Env V W ε) (target source : Addr)
    (m : Machine V W) (T U : TypeKey) (v u : V) (o p : Nat)
    (hne : target ≠ source)
    (ht : m.heap target = some { _storage := some ⟨T, v, o⟩, _vtable := some (.gen T) })
    (hs : m.heap source = some { _storage := some ⟨U, u, p⟩, _vtable := some (.gen U) }) :
    ∃ m1, Thunk.operator_assign env target source m = .ok m1
      ∧ m1.trace = m.trace ++
          [Event.destroy (.gen T) target, Event.destructed T o target,
           Event.copy (.gen U) target source, Event.constructed U m.nextOid target]
      ∧ m1.world = ((env.typeOf U).copyCtor u ((env.typeOf T).dtor v m.world)).2
      ∧ m1.heap target = some
          { _storage := some ⟨U, ((env.typeOf U).copyCtor u ((env.typeOf T).dtor v m.world)).1,
              m.nextOid⟩
            _vtable := some (.gen U) }
      ∧ m1.heap source = m.heap source := by
  have hne2 : source ≠ target := fun h => hne h.symm
  simp [Thunk.operator_assign, vtable_destroy, vtable_copy, Env.vtable,
    ThunkVTableGenerator.destroy, ThunkVTableGenerator.copy, Machine.emit, clobberEvents,
    hne, hne2, ht, hs, Function.update]

/-- Witness for C1 on the sample state: container 1 is assigned to container 0. -/
theorem operator_assign_bound_bound_witness :
    ∃ m1, Thunk.operator_assign demoEnv 0 1 demoMachine = .ok m1
      ∧ m1.trace = [] ++
          [Event.destroy (.gen (.cls 0)) 0, Event.destructed (.cls 0) 0 0,
           Event.copy (.gen (.cls 2)) 0 1, Event.constructed (.cls 2) 2 0]
      ∧ m1.world = { counter := 0, dtors := 1 }
      ∧ m1.heap 0 = some
          { _storage := some ⟨.cls 2, 7, 2⟩, _vtable := some (.gen (.cls 2)) }
      ∧ m1.heap 1 = demoMachine.heap 1 :=
  operator_assign_bound_bound demoEnv 0 1 demoMachine (.cls 0) (.cls 2) 5 7 0 1
    (by decide) rfl rfl

/-! ## Wrapping, copying, invoking -/

/-- C3 fails as stated: class 1 of the sample program fits in the buffer
(4 ≤ 32); wrapping the value `0`, copy-constructing a second container and
invoking it adds 2 to the external counter, while invoking the value `0`
directly in the same world adds 0: each of the two copy constructions changed
the held value. -/
theorem wrap_copy_call_differs :
    (demoEnv.classes 1).size ≤ demoEnv.BufferSize ∧
    ∃ m1 m2 m3 r,
      Thunk.ctor_callable demoEnv 1 0 0 (Machine.init { counter := 0, dtors := 0 }) = .ok m1
      ∧ Thunk.ctor_copy demoEnv 1 0 m1 = .ok m2
      ∧ Thunk.operator_call demoEnv 1 m2 = .ok (m3, r)
      ∧ m3.world.counter = 2
      ∧ (((demoEnv.classes 1).callOp 0 m2.world).1.2).counter = 0 :=
  ⟨by decide, _, _, _, _, rfl, rfl, rfl, rfl, rfl⟩

/-- C3, amended. For a class type that fits in the buffer and whose copy
constructor yields a copy that acts as its source does when invoked (same
resulting world, same failure): wrapping `f` in a fresh container, copy-constructing
a second fresh container from it and invoking the second one has the effect of
invoking `f` directly in the same world. -/
theorem wrap_copy_call {V W ε : Type} (env : Env V W ε) (n : Nat) (f : V) (a b : Addr)
    (m : Machine V W)
    (hfit : (env.classes n).size ≤ env.BufferSize)
    (ha : m.heap a = none) (hb : m.heap b = none) (hab : a ≠ b)
    (hcopy : ∀ v w w1,
      ((env.classes n).callOp ((env.classes n).copyCtor v w).1 w1).1.2
          = ((env.classes n).callOp v w1).1.2
        ∧ ((env.classes n).callOp ((env.classes n).copyCtor v w).1 w1).2
          = ((env.classes n).callOp v w1).2) :
    ∃ m1 m2 m3 r,
      Thunk.ctor_callable env n f a m = .ok m1
      ∧ Thunk.ctor_copy env b a m1 = .ok m2
      ∧ Thunk.operator_call env b m2 = .ok (m3, r)
      ∧ m3.world = ((env.classes n).callOp f m2.world).1.2
      ∧ r = ((env.classes n).callOp f m2.world).2 := by
  have hba : b ≠ a := fun h => hab h.symm
  simp [Thunk.ctor_callable, Thunk.wrap, Thunk.ctor_copy, Thunk.operator_call, vtable_copy,
    vtable_call, Env.vtable, ThunkVTableGenerator.copy, ThunkVTableGenerator.call,
    Machine.emit, Machine.store, clobberEvents, Env.typeOf, hfit, ha, hb, hab, hba,
    Function.update, hcopy]

/-- Witness for C3 (amended) on the sample program: class 0 counts its copies
in its own state, and its call increments the external counter whatever that
state is. -/
theorem wrap_copy_call_witness :
    ∃ m1 m2 m3 r,
      Thunk.ctor_callable demoEnv 0 5 0 (Machine.init { counter := 0, dtors := 0 }) = .ok m1
      ∧ Thunk.ctor_copy demoEnv 1 0 m1 = .ok m2
      ∧ Thunk.operator_call demoEnv 1 m2 = .ok (m3, r)
      ∧ m3.world = ((demoEnv.classes 0).callOp 5 m2.world).1.2
      ∧ r = ((demoEnv.classes 0).callOp 5 m2.world).2 :=
  wrap_copy_call demoEnv 0 5 0 1 (Machine.init { counter := 0, dtors := 0 })
    (by decide) rfl rfl (by decide) (fun _ _ _ => ⟨rfl, rfl⟩)

/-! ## States of a container -/

theorem Thunk.state_eq_bound {V : Type} (th : Thunk V) (T : TypeKey) :
    th.state = some (.BOUND T) ↔
      ∃ v o, th = { _storage := some ⟨T, v, o⟩, _vtable := some (.gen T) } := by
  constructor
  · intro h
    obtain ⟨st, vt⟩ := th
    cases vt with
    | none => simp [Thunk.state] at h
    | some t =>
      cases t with
      | noop => cases st <;> simp [Thunk.state] at h
      | gen U =>
        cases st with
        | none => simp [Thunk.state] at h
        | some obj =>
          obtain ⟨ty, v, o⟩ := obj
          by_cases hty : ty = U
          · simp [Thunk.state, hty] at h
            subst h; subst hty
            exact ⟨v, o, rfl⟩
          · simp [Thunk.state, hty] at h
  · rintro ⟨v, o, rfl⟩
    simp [Thunk.state]

theorem Thunk.state_eq_empty {V : Type} (th : Thunk V) :
    th.state = some .EMPTY ↔ th = { _storage := none, _vtable := some .noop } := by
  constructor
  · intro h
    obtain ⟨st, vt⟩ := th
    cases vt with
    | none => simp [Thunk.state] at h
    | some t =>
      cases t with
      | noop => cases st <;> simp [Thunk.state] at h ⊢
      | gen U =>
        cases st with
        | none => simp [Thunk.state] at h
        | some obj =>
          by_cases hty : obj.ty = U <;> simp [Thunk.state, hty] at h
  · rintro rfl
    simp [Thunk.state]

theorem Thunk.state_cases {V : Type} (th : Thunk V) (h : th.state ≠ none) :
    th = { _storage := none, _vtable := some .noop } ∨
      ∃ T v o, th = { _storage := some ⟨T, v, o⟩, _vtable := some (.gen T) } := by
  cases hs : th.state with
  | none => exact absurd hs h
  | some st =>
    cases st with
    | EMPTY => exact Or.inl ((Thunk.state_eq_empty th).1 hs)
    | BOUND T =>
      obtain ⟨v, o, e⟩ := (Thunk.state_eq_bound th T).1 hs
      exact Or.inr ⟨T, v, o, e⟩

/-! ## Invocation -/

/-- C4. Invoking the container at `a` changes no other container: every other
container (the original, every copy, however it was made) keeps its table
reference and its held value; the invoked container keeps its table reference
and the identity of its object. -/
theorem operator_call_frame {V W ε : Type} (env : Env V W ε) (a : Addr)
    (m m1 : Machine V W) (r : Option ε)
    (h : Thunk.operator_call env a m = .ok (m1, r)) :
    (∀ b, b ≠ a → m1.heap b = m.heap b)
      ∧ ∃ th th1, m.heap a = some th ∧ m1.heap a = some th1
          ∧ th1._vtable = th._vtable
          ∧ th1._storage.map LiveObj.oid = th._storage.map LiveObj.oid := by
  unfold Thunk.operator_call at h
  cases hth : m.heap a with
  | none => simp [hth] at h
  | some th =>
    obtain ⟨st, vt⟩ := th
    simp only [hth] at h
    cases vt with
    | none => simp [vtable_call] at h
    | some t =>
      cases t with
      | noop =>
        simp [vtable_call, Env.vtable, NoopTable.call, Machine.emit, hth,
          Thunk.empty_thunk] at h
        obtain ⟨h1, -⟩ := h
        subst h1
        exact ⟨fun _ _ => rfl, _, _, rfl, hth, rfl, rfl⟩
      | gen T =>
        cases st with
        | none =>
          simp [vtable_call, Env.vtable, ThunkVTableGenerator.call, Machine.emit, hth] at h
        | some obj =>
          by_cases hty : obj.ty = T
          · simp [vtable_call, Env.vtable, ThunkVTableGenerator.call, Machine.emit, hth,
              hty] at h
            obtain ⟨h1, -⟩ := h
            subst h1
            exact ⟨fun b hb => by simp [Function.update, hb], _, _, rfl,
              Function.update_same _ _ _, rfl, rfl⟩
          · simp [vtable_call, Env.vtable, ThunkVTableGenerator.call, Machine.emit, hth,
              hty] at h

/-- Witness for C4: a class 2 callable (each call increments its own state) is
wrapped with state 7 in container 0, copied into container 1 by construction and
into container 2 by assignment; invoking container 1 takes its state to 8, while
containers 0 and 2 still hold 7. -/
theorem operator_call_frame_witness :
    ∃ m m1 r,
      run demoEnv
          [.ctor_callable 2 7 0, .ctor_copy 1 0, .ctor_default 2, .operator_assign 2 0]
          (Machine.init { counter := 0, dtors := 0 }) = .ok m
      ∧ Thunk.operator_call demoEnv 1 m = .ok (m1, r)
      ∧ ((∀ b, b ≠ 1 → m1.heap b = m.heap b)
        ∧ ∃ th th1, m.heap 1 = some th ∧ m1.heap 1 = some th1
            ∧ th1._vtable = th._vtable
            ∧ th1._storage.map LiveObj.oid = th._storage.map LiveObj.oid)
      ∧ ((m.heap 1).bind Thunk._storage).map LiveObj.val = some 7
      ∧ ((m1.heap 1).bind Thunk._storage).map LiveObj.val = some 8
      ∧ ((m1.heap 0).bind Thunk._storage).map LiveObj.val = some 7
      ∧ ((m1.heap 2).bind Thunk._storage).map LiveObj.val = some 7 :=
  ⟨_, _, _, rfl, rfl, operator_call_frame demoEnv 1 _ _ _ rfl, rfl, rfl, rfl, rfl⟩

/-! ## The empty container -/

/-- C6. Whatever `BufferSize` is: default construction at a fresh address
yields a container with the no-op table and an empty buffer; invoking a
container `s` in that state succeeds without failure and leaves the world and
every container as they were (only the dispatch is recorded); and a copy of `s`,
by copy construction at a fresh address or by assignment to another container,
is again in that state. -/
theorem empty_call_noop {V W ε : Type} (env : Env V W ε) (m : Machine V W) (s : Addr)
    (hs : m.heap s = some { _storage := none, _vtable := some .noop }) :
    (∀ (m0 : Machine V W) a, m0.heap a = none →
        ∃ m1, Thunk.ctor_default a m0 = .ok m1 ∧ m1.world = m0.world
          ∧ m1.heap a = some { _storage := none, _vtable := some .noop })
      ∧ (∃ m1, Thunk.operator_call env s m = .ok (m1, none)
          ∧ m1.world = m.world ∧ m1.heap = m.heap ∧ m1.nextOid = m.nextOid
          ∧ m1.trace = m.trace ++ [Event.call .noop s])
      ∧ (∀ b, m.heap b = none →
          ∃ m1, Thunk.ctor_copy env b s m = .ok m1 ∧ m1.world = m.world
            ∧ m1.heap b = some { _storage := none, _vtable := some .noop })
      ∧ (∀ t th, t ≠ s → m.heap t = some th → th.state ≠ none →
          ∃ m1, Thunk.operator_assign env t s m = .ok m1
            ∧ m1.heap t = some { _storage := none, _vtable := some .noop }) := by
  refine ⟨?_, ?_, ?_, ?_⟩
  · intro m0 a ha
    simp [Thunk.ctor_default, ha, Machine.store]
  · simp [Thunk.operator_call, vtable_call, Env.vtable, NoopTable.call, Machine.emit, hs,
      Thunk.empty_thunk]
  · intro b hb
    have hbs : b ≠ s := fun h => by rw [h, hs] at hb; exact Option.noConfusion hb
    have hsb : s ≠ b := fun h => hbs h.symm
    simp [Thunk.ctor_copy, vtable_copy, Env.vtable, NoopTable.copy, Machine.emit,
      Machine.store, hs, hb, hbs, hsb, Function.update]
  · intro t th hts ht hst
    have hst2 : s ≠ t := fun h => hts h.symm
    rcases Thunk.state_cases th hst with rfl | ⟨T, v, o, rfl⟩
    · simp [Thunk.operator_assign, vtable_destroy, vtable_copy, Env.vtable,
        NoopTable.destroy, NoopTable.copy, Machine.emit, Machine.store, hs, ht, hts, hst2,
        Function.update]
    · simp [Thunk.operator_assign, vtable_destroy, vtable_copy, Env.vtable,
        ThunkVTableGenerator.destroy, NoopTable.copy, Machine.emit, Machine.store, hs, ht,
        hts, hst2, Function.update]

/-- Witness for C6 on the sample state, whose container 2 is empty. -/
theorem empty_call_noop_witness :
    (∀ (m0 : Machine Nat DemoWorld) a, m0.heap a = none →
        ∃ m1, Thunk.ctor_default a m0 = .ok m1 ∧ m1.world = m0.world
          ∧ m1.heap a = some { _storage := none, _vtable := some .noop })
      ∧ (∃ m1, Thunk.operator_call demoEnv 2 demoMachine = .ok (m1, none)
          ∧ m1.world = demoMachine.world ∧ m1.heap = demoMachine.heap
          ∧ m1.nextOid = demoMachine.nextOid
          ∧ m1.trace = demoMachine.trace ++ [Event.call .noop 2])
      ∧ (∀ b, demoMachine.heap b = none →
          ∃ m1, Thunk.ctor_copy demoEnv b 2 demoMachine = .ok m1
            ∧ m1.world = demoMachine.world
            ∧ m1.heap b = some { _storage := none, _vtable := some .noop })
      ∧ (∀ t th, t ≠ 2 → demoMachine.heap t = some th → th.state ≠ none →
          ∃ m1, Thunk.operator_assign demoEnv t 2 demoMachine = .ok m1
            ∧ m1.heap t = some { _storage := none, _vtable := some .noop }) :=
  empty_call_noop demoEnv demoMachine 2 rfl

/-! ## Symbolic execution of the operations

One equation per operation and per state of the containers involved. -/

theorem Thunk.ctor_default_fresh {V W : Type} (this : Addr) (m : Machine V W)
    (h : m.heap this = none) :
    Thunk.ctor_default this m
      = .ok (m.store this (some { _storage := none, _vtable := some .noop })) := by
  simp [Thunk.ctor_default, h]

theorem Thunk.wrap_fresh {V W ε : Type} (env : Env V W ε) (T : TypeKey) (f : V) (this : Addr)
    (m : Machine V W) (hfit : (env.typeOf T).size ≤ env.BufferSize) (h : m.heap this = none) :
    Thunk.wrap env T f this m
      = .ok { heap := Function.update m.heap this
                (some { _storage := some ⟨T, ((env.typeOf T).copyCtor f m.world).1, m.nextOid⟩
                        _vtable := some (.gen T) })
              world := ((env.typeOf T).copyCtor f m.world).2
              trace := m.trace ++ [Event.constructed T m.nextOid this]
              nextOid := m.nextOid + 1 } := by
  simp [Thunk.wrap, h, hfit]

theorem Thunk.ctor_copy_bound {V W ε : Type} (env : Env V W ε) (this other : Addr)
    (m : Machine V W) (T : TypeKey) (v : V) (o : Nat) (h : m.heap this = none)
    (hs : m.heap other = some { _storage := some ⟨T, v, o⟩, _vtable := some (.gen T) }) :
    Thunk.ctor_copy env this other m
      = .ok { heap := Function.update m.heap this
                (some { _storage := some ⟨T, ((env.typeOf T).copyCtor v m.world).1, m.nextOid⟩
                        _vtable := some (.gen T) })
              world := ((env.typeOf T).copyCtor v m.world).2
              trace := m.trace ++ [Event.copy (.gen T) this other,
                Event.constructed T m.nextOid this]
              nextOid := m.nextOid + 1 } := by
  have hne : this ≠ other := fun e => by rw [e, hs] at h; exact Option.noConfusion h
  have hne2 : other ≠ this := fun e => hne e.symm
  simp [Thunk.ctor_copy, vtable_copy, Env.vtable, ThunkVTableGenerator.copy, Machine.emit,
    Machine.store, clobberEvents, h, hs, hne2]

theorem Thunk.ctor_copy_empty {V W ε : Type} (env : Env V W ε) (this other : Addr)
    (m : Machine V W) (h : m.heap this = none)
    (hs : m.heap other = some { _storage := none, _vtable := some .noop }) :
    Thunk.ctor_copy env this other m
      = .ok { heap := Function.update m.heap this
                (some { _storage := none, _vtable := some .noop })
              world := m.world
              trace := m.trace ++ [Event.copy .noop this other]
              nextOid := m.nextOid } := by
  have hne : this ≠ other := fun e => by rw [e, hs] at h; exact Option.noConfusion h
  have hne2 : other ≠ this := fun e => hne e.symm
  simp [Thunk.ctor_copy, vtable_copy, Env.vtable, NoopTable.copy, Machine.emit,
    Machine.store, h, hs, hne2]

theorem Thunk.dtor_bound {V W ε : Type} (env : Env V W ε) (this : Addr)
    (m : Machine V W) (T : TypeKey) (v : V) (o : Nat)
    (h : m.heap this = some { _storage := some ⟨T, v, o⟩, _vtable := some (.gen T) }) :
    Thunk.dtor env this m
      = .ok { heap := Function.update m.heap this none
              world := (env.typeOf T).dtor v m.world
              trace := m.trace ++ [Event.destroy (.gen T) this, Event.destructed T o this]
              nextOid := m.nextOid } := by
  simp [Thunk.dtor, vtable_destroy, Env.vtable, ThunkVTableGenerator.destroy, Machine.emit,
    Machine.store, h]

theorem Thunk.dtor_empty {V W ε : Type} (env : Env V W ε) (this : Addr)
    (m : Machine V W)
    (h : m.heap this = some { _storage := none, _vtable := some .noop }) :
    Thunk.dtor env this m
      = .ok { heap := Function.update m.heap this none
              world := m.world
              trace := m.trace ++ [Event.destroy .noop this]
              nextOid := m.nextOid } := by
  simp [Thunk.dtor, vtable_destroy, Env.vtable, NoopTable.destroy, Machine.emit,
    Machine.store, h]

theorem Thunk.operator_assign_bb {V W ε : Type} (env : Env V W ε) (this other : Addr)
    (m : Machine V W) (T U : TypeKey) (v u : V) (o p : Nat) (hne : this ≠ other)
    (ht : m.heap this = some { _storage := some ⟨T, v, o⟩, _vtable := some (.gen T) })
    (hs : m.heap other = some { _storage := some ⟨U, u, p⟩, _vtable := some (.gen U) }) :
    Thunk.operator_assign env this other m
      = .ok { heap := Function.update m.heap this
                (some { _storage := some ⟨U,
                          ((env.typeOf U).copyCtor u ((env.typeOf T).dtor v m.world)).1,
                          m.nextOid⟩
                        _vtable := some (.gen U) })
              world := ((env.typeOf U).copyCtor u ((env.typeOf T).dtor v m.world)).2
              trace := m.trace ++ [Event.destroy (.gen T) this, Event.destructed T o this,
                Event.copy (.gen U) this other, Event.constructed U m.nextOid this]
              nextOid := m.nextOid + 1 } := by
  have hne2 : other ≠ this := fun e => hne e.symm
  simp [Thunk.operator_assign, vtable_destroy, vtable_copy, Env.vtable,
    ThunkVTableGenerator.destroy, ThunkVTableGenerator.copy, Machine.emit, clobberEvents,
    hne, hne2, ht, hs]

theorem Thunk.operator_assign_be {V W ε : Type} (env : Env V W ε) (this other : Addr)
    (m : Machine V W) (T : TypeKey) (v : V) (o : Nat) (hne : this ≠ other)
    (ht : m.heap this = some { _storage := some ⟨T, v, o⟩, _vtable := some (.gen T) })
    (hs : m.heap other = some { _storage := none, _vtable := some .noop }) :
    Thunk.operator_assign env this other m
      = .ok { heap := Function.update m.heap this
                (some { _storage := none, _vtable := some .noop })
              world := (env.typeOf T).dtor v m.world
              trace := m.trace ++ [Event.destroy (.gen T) this, Event.destructed T o this,
                Event.copy .noop this other]
              nextOid := m.nextOid } := by
  have hne2 : other ≠ this := fun e => hne e.symm
  simp [Thunk.operator_assign, vtable_destroy, vtable_copy, Env.vtable,
    ThunkVTableGenerator.destroy, NoopTable.copy, Machine.emit, Machine.store,
    hne, hne2, ht, hs]

theorem Thunk.operator_assign_eb {V W ε : Type} (env : Env V W ε) (this other : Addr)
    (m : Machine V W) (U : TypeKey) (u : V) (p : Nat) (hne : this ≠ other)
    (ht : m.heap this = some { _storage := none, _vtable := some .noop })
    (hs : m.heap other = some { _storage := some ⟨U, u, p⟩, _vtable := some (.gen U) }) :
    Thunk.operator_assign env this other m
      = .ok { heap := Function.update m.heap this
                (some { _storage := some ⟨U, ((env.typeOf U).copyCtor u m.world).1, m.nextOid⟩
                        _vtable := some (.gen U) })
              world := ((env.typeOf U).copyCtor u m.world).2
              trace := m.trace ++ [Event.destroy .noop this,
                Event.copy (.gen U) this other, Event.constructed U m.nextOid this]
              nextOid := m.nextOid + 1 } := by
  have hne2 : other ≠ this := fun e => hne e.symm
  simp [Thunk.operator_assign, vtable_destroy, vtable_copy, Env.vtable,
    NoopTable.destroy, ThunkVTableGenerator.copy, Machine.emit, clobberEvents,
    hne, hne2, ht, hs]

theorem Thunk.operator_assign_ee {V W ε : Type} (env : Env V W ε) (this other : Addr)
    (m : Machine V W) (hne : this ≠ other)
    (ht : m.heap this = some { _storage := none, _vtable := some .noop })
    (hs : m.heap other = some { _storage := none, _vtable := some .noop }) :
    Thunk.operator_assign env this other m
      = .ok { heap := Function.update m.heap this
                (some { _storage := none, _vtable := some .noop })
              world := m.world
              trace := m.trace ++ [Event.destroy .noop this, Event.copy .noop this other]
              nextOid := m.nextOid } := by
  have hne2 : other ≠ this := fun e => hne e.symm
  simp [Thunk.operator_assign, vtable_destroy, vtable_copy, Env.vtable,
    NoopTable.destroy, NoopTable.copy, Machine.emit, Machine.store,
    hne, hne2, ht, hs]

theorem Thunk.operator_call_bound {V W ε : Type} (env : Env V W ε) (this : Addr)
    (m : Machine V W) (T : TypeKey) (v : V) (o : Nat)
    (h : m.heap this = some { _storage := some ⟨T, v, o⟩, _vtable := some (.gen T) }) :
    Thunk.operator_call env this m
      = .ok ({ heap := Function.update m.heap this
                 (some { _storage := some ⟨T, ((env.typeOf T).callOp v m.world).1.1, o⟩
                         _vtable := some (.gen T) })
               world := ((env.typeOf T).callOp v m.world).1.2
               trace := m.trace ++ [Event.call (.gen T) this, Event.invoked T o this]
               nextOid := m.nextOid },
             ((env.typeOf T).callOp v m.world).2) := by
  simp [Thunk.operator_call, vtable_call, Env.vtable, ThunkVTableGenerator.call,
    Machine.emit, h]

theorem Thunk.operator_call_empty {V W ε : Type} (env : Env V W ε) (this : Addr)
    (m : Machine V W)
    (h : m.heap this = some { _storage := none, _vtable := some .noop }) :
    Thunk.operator_call env this m
      = .ok ({ heap := m.heap
               world := m.world
               trace := m.trace ++ [Event.call .noop this]
               nextOid := m.nextOid }, (none : Option ε)) := by
  simp [Thunk.operator_call, vtable_call, Env.vtable, NoopTable.call, Machine.emit, h,
    Thunk.empty_thunk]

/-! ## The counting scenario -/

theorem run_append {V W ε : Type} (env : Env V W ε) (l1 l2 : List (Op V)) (m : Machine V W) :
    run env (l1 ++ l2) m =
      match run env l1 m with
      | .error e => .error e
      | .ok m1 => run env l2 m1 := by
  induction l1 generalizing m with
  | nil => simp [run]
  | cons op l1 ih =>
    simp only [List.cons_append, run]
    cases step env op m with
    | error e => simp
    | ok m1 => simpa using ih m1

theorem AllBound.update {V W : Type} (n k a : Nat) (m : Machine V W) (h : AllBound n k m)
    (ha : a ≤ k) (v : V) (o : Nat) (w : W) (tr : List Event) (nx : Nat) :
    AllBound n k
      { heap := Function.update m.heap a
          (some { _storage := some ⟨.cls n, v, o⟩, _vtable := some (.gen (.cls n)) })
        world := w, trace := tr, nextOid := nx } := by
  constructor
  · intro b hb
    by_cases hba : b = a
    · subst hba
      exact ⟨v, o, by simp⟩
    · obtain ⟨v1, o1, h1⟩ := h.1 b hb
      exact ⟨v1, o1, by simp [hba, h1]⟩
  · intro b hb
    have hba : b ≠ a := by omega
    simp [hba, h.2 b hb]

theorem AllBound.extend {V W : Type} (n k : Nat) (m : Machine V W) (h : AllBound n k m)
    (v : V) (o : Nat) (w : W) (tr : List Event) (nx : Nat) :
    AllBound n (k + 1)
      { heap := Function.update m.heap (k + 1)
          (some { _storage := some ⟨.cls n, v, o⟩, _vtable := some (.gen (.cls n)) })
        world := w, trace := tr, nextOid := nx } := by
  constructor
  · intro b hb
    by_cases hba : b = k + 1
    · subst hba
      exact ⟨v, o, by simp⟩
    · obtain ⟨v1, o1, h1⟩ := h.1 b (by omega)
      exact ⟨v1, o1, by simp [hba, h1]⟩
  · intro b hb
    have hba : b ≠ k + 1 := by omega
    simp [hba, h.2 b (by omega)]

theorem AllBound.after_copies {V W ε : Type} (env : Env V W ε) (n : Nat) (src : Nat → Addr)
    (hsrc : ∀ i, src i ≤ i) (counter : W → Nat) (m : Machine V W) (h : AllBound n 0 m)
    (N : Nat) :
    ∃ m1, run env (copiesOps src N) m = .ok m1 ∧ AllBound n N m1
      ∧ ((∀ v w, counter ((env.classes n).copyCtor v w).2 = counter w) →
          counter m1.world = counter m.world) := by
  induction N with
  | zero => exact ⟨m, by simp [eq.copiesOps, run], h, fun _ => rfl⟩
  | succ N ih =>
    obtain ⟨m1, hrun, hb, hc⟩ := ih
    obtain ⟨v, o, hv⟩ := hb.1 (src N) (hsrc N)
    have hk : m1.heap (N + 1) = none := hb.2 (N + 1) (Nat.lt_succ_self N)
    obtain ⟨m2, hcopy, hb2, hw⟩ : ∃ m2, Thunk.ctor_copy env (N + 1) (src N) m1 = .ok m2
        ∧ AllBound n (N + 1) m2
        ∧ m2.world = ((env.classes n).copyCtor v m1.world).2 :=
      ⟨_, Thunk.ctor_copy_bound env (N + 1) (src N) m1 (.cls n) v o hk hv,
        AllBound.extend n N m1 hb _ _ _ _ _, rfl⟩
    refine ⟨m2, ?_, hb2, ?_⟩
    · simp only [eq.copiesOps, List.range_succ, List.map_append, List.map_cons, List.map_nil]
      rw [run_append]
      simp only [eq.copiesOps] at hrun
      simp only [hrun, run, step, hcopy]
    · intro hcc
      rw [hw, hcc, hc hcc]

theorem AllBound.after_calls {V W ε : Type} (env : Env V W ε) (n k : Nat)
    (counter : W → Nat)
    (hcall : ∀ v w, counter ((env.classes n).callOp v w).1.2 = counter w + 1)
    (l : List Nat) (hl : ∀ a ∈ l, a ≤ k) (m : Machine V W) (h : AllBound n k m) :
    ∃ m1, run env (l.map Op.operator_call) m = .ok m1 ∧ AllBound n k m1
      ∧ counter m1.world = counter m.world + l.length := by
  induction l generalizing m with
  | nil => exact ⟨m, by simp [run], h, by simp⟩
  | cons a l ih =>
    have ha : a ≤ k := hl a (List.mem_cons_self a l)
    obtain ⟨v, o, hv⟩ := h.1 a ha
    have hc := Thunk.operator_call_bound env a m (.cls n) v o hv
    obtain ⟨m2, hrun, hb2, hw2⟩ :=
      ih (fun b hb => hl b (List.mem_cons_of_mem a hb)) _
        (AllBound.update n k a m h ha ((env.classes n).callOp v m.world).1.1 o
          ((env.classes n).callOp v m.world).1.2
          (m.trace ++ [Event.call (.gen (.cls n)) a, Event.invoked (.cls n) o a]) m.nextOid)
    refine ⟨m2, ?_, hb2, ?_⟩
    · simp only [List.map_cons, run, step, hc]
      exact hrun
    · rw [hw2, hcall, List.length_cons]
      omega

/-- C5. Wrap a callable of a class that fits in the buffer and whose call
increments the external counter; make `N` copies, each copy-constructed from
the original or from an earlier copy; invoke all `N + 1` containers once each.
Every step succeeds and the invocations raise the counter by exactly `N + 1`;
when the copy constructor of the class leaves the counter alone, the counter
ends `N + 1` above its initial value. -/
theorem counting_scenario {V W ε : Type} (env : Env V W ε) (counter : W → Nat) (n : Nat)
    (f : V) (w : W) (N : Nat) (src : Nat → Addr)
    (hfit : (env.classes n).size ≤ env.BufferSize)
    (hsrc : ∀ i, src i ≤ i)
    (hcall : ∀ v w, counter ((env.classes n).callOp v w).1.2 = counter w + 1) :
    ∃ m1 m2, run env (Op.ctor_callable n f 0 :: copiesOps src N) (Machine.init w) = .ok m1
      ∧ run env (callsOps N) m1 = .ok m2
      ∧ counter m2.world = counter m1.world + (N + 1)
      ∧ ((∀ v w, counter ((env.classes n).copyCtor v w).2 = counter w) →
          counter m2.world = counter w + (N + 1)) := by
  have hwrap := Thunk.wrap_fresh env (.cls n) f 0 (Machine.init w) hfit rfl
  have hb0 : AllBound n 0
      ({ heap := Function.update (Machine.init w : Machine V W).heap 0
            (some { _storage := some ⟨.cls n, ((env.classes n).copyCtor f w).1, 0⟩
                    _vtable := some (.gen (.cls n)) })
         world := ((env.classes n).copyCtor f w).2
         trace := [Event.constructed (.cls n) 0 0]
         nextOid := 1 } : Machine V W) := by
    constructor
    · intro a ha
      have : a = 0 := by omega
      subst this
      exact ⟨((env.classes n).copyCtor f w).1, 0, by simp⟩
    · intro a ha
      have : a ≠ 0 := by omega
      simp [this, Machine.init]
  obtain ⟨m1, hrun1, hb1, hw1⟩ := AllBound.after_copies env n src hsrc counter _ hb0 N
  obtain ⟨m2, hrun2, -, hw2⟩ :=
    AllBound.after_calls env n N counter hcall (List.range (N + 1))
      (fun a ha => by have := List.mem_range.1 ha; omega) m1 hb1
  refine ⟨m1, m2, ?_, ?_, ?_, ?_⟩
  · simp only [run, step, Thunk.ctor_callable, hwrap]
    exact hrun1
  · simpa [eq.callsOps] using hrun2
  · simpa using hw2
  · intro hcc
    rw [hw2, hw1 hcc, hcc]
    simp

/-- Witness for C5: the sample program has `BufferSize = 32`; a class 0 callable
is wrapped and copied three times (copy `i + 1` is made from container `i / 2`,
so from the original and from a copy), and the four containers are invoked: the
counter, started at 0, equals 4. -/
theorem counting_scenario_witness :
    demoEnv.BufferSize = 32 ∧
    ∃ m1 m2,
      run demoEnv (Op.ctor_callable 0 5 0 :: copiesOps (fun i => i / 2) 3)
          (Machine.init { counter := 0, dtors := 0 }) = .ok m1
      ∧ run demoEnv (callsOps 3) m1 = .ok m2
      ∧ m2.world.counter = 4 := by
  obtain ⟨m1, m2, h1, h2, -, h4⟩ :=
    counting_scenario demoEnv DemoWorld.counter 0 5 { counter := 0, dtors := 0 } 3
      (fun i => i / 2) (by decide) (fun i => Nat.div_le_self i 2) (fun _ _ => rfl)
  exact ⟨rfl, m1, m2, h1, h2, by simpa using h4 (fun _ _ => rfl)⟩

/-! ## The object discipline is kept by every operation -/

theorem slotOf_update {V : Type} (heap : Addr → Option (Thunk V)) (a : Addr)
    (x : Option (Thunk V)) :
    slotOf (Function.update heap a x) = Function.update (slotOf heap) a (objOf x) := by
  funext b
  by_cases hb : b = a
  · subst hb
    simp [slotOf]
  · simp [slotOf, hb]

theorem destructions_append (o : Nat) (l1 l2 : List Event) :
    destructions o (l1 ++ l2) = destructions o l1 + destructions o l2 := by
  simp [destructions]

theorem constructions_append (o : Nat) (l1 l2 : List Event) :
    constructions o (l1 ++ l2) = constructions o l1 + constructions o l2 := by
  simp [constructions]

theorem Inv0.initial : Inv0 (fun _ => none) [] 0 where
  fresh := fun a o h => by simp at h
  inj := fun a b o h => by simp at h
  once := fun o => by simp [destructions]
  dead := fun o => by simp [destructions]
  born := fun o => by simp [constructions]
  clean := fun e h => by simp at h

theorem Inv0.emit_dispatch {sl : Addr → Option Nat} {tr : List Event} {nx : Nat}
    (h : Inv0 sl tr nx) (e : Event) (he : e.isDispatch = true ∨ ∃ T o a, e = .invoked T o a) :
    Inv0 sl (tr ++ [e]) nx := by
  have hd : ∀ o, destructions o [e] = 0 := by
    intro o
    rcases he with he | ⟨T, o1, a, rfl⟩
    · cases e <;> simp_all [destructions, Event.destructs, Event.isDispatch]
    · simp [destructions, Event.destructs]
  have hc : ∀ o, constructions o [e] = 0 := by
    intro o
    rcases he with he | ⟨T, o1, a, rfl⟩
    · cases e <;> simp_all [constructions, Event.constructs, Event.isDispatch]
    · simp [constructions, Event.constructs]
  have hk : e.isClobber = false := by
    rcases he with he | ⟨T, o1, a, rfl⟩
    · cases e <;> simp_all [Event.isClobber, Event.isDispatch]
    · rfl
  exact
    { fresh := h.fresh
      inj := h.inj
      once := fun o => by rw [destructions_append, hd]; exact h.once o
      dead := fun o => by rw [destructions_append, hd]; exact h.dead o
      born := fun o => by rw [constructions_append, hc]; exact h.born o
      clean := fun e1 h1 => by
        rcases List.mem_append.1 h1 with h2 | h2
        · exact h.clean e1 h2
        · rw [List.mem_singleton.1 h2]; exact hk }

theorem Inv0.destruct_obj {sl : Addr → Option Nat} {tr : List Event} {nx : Nat}
    (h : Inv0 sl tr nx) (T : TypeKey) (a : Addr) (o : Nat) (ha : sl a = some o) :
    Inv0 (Function.update sl a none) (tr ++ [Event.destructed T o a]) nx := by
  have hlive : destructions o tr = 0 := by
    have h1 := h.once o
    have h2 : ¬ destructions o tr = 1 := fun e => ((h.dead o).1 e).2 a ha
    omega
  have hd : ∀ o1, destructions o1 [Event.destructed T o a] = if o = o1 then 1 else 0 := by
    intro o1
    by_cases e : o = o1 <;> simp [destructions, Event.destructs, e]
  have hc : ∀ o1, constructions o1 [Event.destructed T o a] = 0 := by
    intro o1
    simp [constructions, Event.constructs]
  refine
    { fresh := ?_, inj := ?_, once := ?_, dead := ?_, born := ?_, clean := ?_ }
  · intro b o1 hb
    by_cases e : b = a
    · subst e; simp at hb
    · rw [Function.update_noteq e] at hb
      exact h.fresh b o1 hb
  · intro b c o1 hb hc1
    by_cases e : b = a
    · subst e; simp at hb
    · by_cases e2 : c = a
      · subst e2; simp at hc1
      · rw [Function.update_noteq e] at hb
        rw [Function.update_noteq e2] at hc1
        exact h.inj b c o1 hb hc1
  · intro o1
    rw [destructions_append, hd]
    by_cases e : o = o1
    · subst e; simp [hlive]
    · simp [e]; exact h.once o1
  · intro o1
    rw [destructions_append, hd]
    by_cases e : o = o1
    · subst e
      simp only [hlive, if_true, zero_add, true_iff]
      refine ⟨h.fresh a o ha, fun b hb => ?_⟩
      by_cases e2 : b = a
      · subst e2; simp at hb
      · rw [Function.update_noteq e2] at hb
        exact e2 (h.inj b a o hb ha)
    · simp only [e, if_false, add_zero]
      rw [h.dead o1]
      constructor
      · rintro ⟨h1, h2⟩
        refine ⟨h1, fun b hb => ?_⟩
        by_cases e2 : b = a
        · subst e2; simp at hb
        · rw [Function.update_noteq e2] at hb
          exact h2 b hb
      · rintro ⟨h1, h2⟩
        refine ⟨h1, fun b hb => ?_⟩
        by_cases e2 : b = a
        · subst e2
          rw [ha] at hb
          exact e (Option.some.inj hb)
        · exact h2 b (by rw [Function.update_noteq e2]; exact hb)
  · intro o1
    rw [constructions_append, hc]
    exact h.born o1
  · intro e1 h1
    rcases List.mem_append.1 h1 with h2 | h2
    · exact h.clean e1 h2
    · rw [List.mem_singleton.1 h2]; rfl

theorem Inv0.construct_obj {sl : Addr → Option Nat} {tr : List Event} {nx : Nat}
    (h : Inv0 sl tr nx) (T : TypeKey) (a : Addr) (ha : sl a = none) :
    Inv0 (Function.update sl a (some nx)) (tr ++ [Event.constructed T nx a]) (nx + 1) := by
  have hd : ∀ o1, destructions o1 [Event.constructed T nx a] = 0 := by
    intro o1
    simp [destructions, Event.destructs]
  have hc : ∀ o1, constructions o1 [Event.constructed T nx a] = if nx = o1 then 1 else 0 := by
    intro o1
    by_cases e : nx = o1 <;> simp [constructions, Event.constructs, e]
  have hnew : ¬ destructions nx tr = 1 := fun e => by
    have := ((h.dead nx).1 e).1
    omega
  refine
    { fresh := ?_, inj := ?_, once := ?_, dead := ?_, born := ?_, clean := ?_ }
  · intro b o1 hb
    by_cases e : b = a
    · subst e
      simp at hb
      omega
    · rw [Function.update_noteq e] at hb
      have := h.fresh b o1 hb
      omega
  · intro b c o1 hb hc1
    by_cases e : b = a
    · by_cases e2 : c = a
      · rw [e, e2]
      · subst e
        rw [Function.update_same] at hb
        rw [Function.update_noteq e2] at hc1
        have := h.fresh c o1 hc1
        have := Option.some.inj hb
        omega
    · by_cases e2 : c = a
      · subst e2
        rw [Function.update_same] at hc1
        rw [Function.update_noteq e] at hb
        have := h.fresh b o1 hb
        have := Option.some.inj hc1
        omega
      · rw [Function.update_noteq e] at hb
        rw [Function.update_noteq e2] at hc1
        exact h.inj b c o1 hb hc1
  · intro o1
    rw [destructions_append, hd]
    exact h.once o1
  · intro o1
    rw [destructions_append, hd, Nat.add_zero]
    by_cases e : o1 = nx
    · subst e
      constructor
      · intro h1; exact absurd h1 hnew
      · rintro ⟨-, h2⟩
        exact absurd (Function.update_same a (some o1) sl) (h2 a)
    · rw [h.dead o1]
      constructor
      · rintro ⟨h1, h2⟩
        refine ⟨by omega, fun b hb => ?_⟩
        by_cases e2 : b = a
        · subst e2
          rw [Function.update_same] at hb
          exact e (Option.some.inj hb).symm
        · rw [Function.update_noteq e2] at hb
          exact h2 b hb
      · rintro ⟨h1, h2⟩
        refine ⟨by omega, fun b hb => ?_⟩
        by_cases e2 : b = a
        · subst e2
          rw [ha] at hb
          exact Option.noConfusion hb
        · exact h2 b (by rw [Function.update_noteq e2]; exact hb)
  · intro o1
    rw [constructions_append, hc, h.born o1]
    by_cases e : nx = o1
    · subst e; simp
    · have : (o1 < nx + 1) ↔ (o1 < nx) := by omega
      simp [e, this]
  · intro e1 h1
    rcases List.mem_append.1 h1 with h2 | h2
    · exact h.clean e1 h2
    · rw [List.mem_singleton.1 h2]; rfl

theorem Inv0.emit_dispatches {sl : Addr → Option Nat} {tr : List Event} {nx : Nat}
    (h : Inv0 sl tr nx) (evs : List Event)
    (he : ∀ e ∈ evs, e.isDispatch = true ∨ ∃ T o a, e = .invoked T o a) :
    Inv0 sl (tr ++ evs) nx := by
  induction evs generalizing tr with
  | nil => simpa using h
  | cons e evs ih =>
    have h1 := ih (h.emit_dispatch e (he e (List.mem_cons_self e evs)))
      (fun e1 h1 => he e1 (List.mem_cons_of_mem e h1))
    simpa using h1

theorem wf_update {V : Type} (heap : Addr → Option (Thunk V))
    (hwf : ∀ b th, heap b = some th → th.state ≠ none) (a : Addr) (x : Option (Thunk V))
    (hx : ∀ th, x = some th → th.state ≠ none) :
    ∀ b th, Function.update heap a x b = some th → th.state ≠ none := by
  intro b th hb
  by_cases e : b = a
  · subst e
    rw [Function.update_same] at hb
    exact hx th hb
  · rw [Function.update_noteq e] at hb
    exact hwf b th hb

theorem slotOf_of_heap {V : Type} (heap : Addr → Option (Thunk V)) (a : Addr)
    (x : Option (Thunk V)) (h : heap a = x) : slotOf heap a = objOf x := by
  subst h
  rfl

/-- An operation that leaves the object of container `a` in place (or finds and
leaves its buffer empty) and records only dispatches and invocations. -/
theorem Inv.keep {V W : Type} (m : Machine V W) (h : Inv m) (a : Addr)
    (x : Option (Thunk V)) (w : W) (evs : List Event)
    (hx : ∀ th, x = some th → th.state ≠ none)
    (hslot : slotOf m.heap a = objOf x)
    (he : ∀ e ∈ evs, e.isDispatch = true ∨ ∃ T o a, e = .invoked T o a) :
    Inv { heap := Function.update m.heap a x, world := w, trace := m.trace ++ evs,
          nextOid := m.nextOid } where
  wf := wf_update m.heap h.wf a x hx
  obj := by
    show Inv0 (slotOf (Function.update m.heap a x)) (m.trace ++ evs) m.nextOid
    rw [slotOf_update, ← hslot, Function.update_eq_self]
    exact h.obj.emit_dispatches evs he

/-- An operation that records only dispatches and leaves the heap alone. -/
theorem Inv.keep_heap {V W : Type} (m : Machine V W) (h : Inv m) (w : W) (evs : List Event)
    (he : ∀ e ∈ evs, e.isDispatch = true ∨ ∃ T o a, e = .invoked T o a) :
    Inv { heap := m.heap, world := w, trace := m.trace ++ evs, nextOid := m.nextOid } where
  wf := h.wf
  obj := h.obj.emit_dispatches evs he

/-- An operation that constructs a `T` in the empty buffer of container `a`
(or in a new container at `a`), after dispatches `evs`. -/
theorem Inv.constructing {V W : Type} (m : Machine V W) (h : Inv m) (a : Addr) (T : TypeKey)
    (v : V) (w : W) (evs : List Event)
    (hslot : slotOf m.heap a = none)
    (he : ∀ e ∈ evs, e.isDispatch = true ∨ ∃ T o a, e = .invoked T o a) :
    Inv { heap := Function.update m.heap a
            (some { _storage := some ⟨T, v, m.nextOid⟩, _vtable := some (.gen T) })
          world := w
          trace := m.trace ++ (evs ++ [Event.constructed T m.nextOid a])
          nextOid := m.nextOid + 1 } where
  wf := wf_update m.heap h.wf a _ (fun th e => by
    rw [← Option.some.inj e]
    simp [Thunk.state])
  obj := by
    show Inv0 (slotOf (Function.update m.heap a _)) (m.trace ++ (evs ++ _)) (m.nextOid + 1)
    rw [slotOf_update, ← List.append_assoc]
    exact (h.obj.emit_dispatches evs he).construct_obj T a hslot

/-- An operation that destructs the object `o` of container `a`, between
dispatches `evs1` and `evs2`, and leaves the buffer empty: the container ends
(`x = none`) or becomes empty. -/
theorem Inv.destroying {V W : Type} (m : Machine V W) (h : Inv m) (a : Addr) (T : TypeKey)
    (o : Nat) (x : Option (Thunk V)) (w : W) (evs1 evs2 : List Event)
    (hx : x = none ∨ x = some { _storage := none, _vtable := some .noop })
    (hslot : slotOf m.heap a = some o)
    (he1 : ∀ e ∈ evs1, e.isDispatch = true ∨ ∃ T o a, e = .invoked T o a)
    (he2 : ∀ e ∈ evs2, e.isDispatch = true ∨ ∃ T o a, e = .invoked T o a) :
    Inv { heap := Function.update m.heap a x
          world := w
          trace := m.trace ++ (evs1 ++ Event.destructed T o a :: evs2)
          nextOid := m.nextOid } where
  wf := wf_update m.heap h.wf a _ (fun th e => by
    rcases hx with rfl | rfl
    · exact Option.noConfusion e
    · rw [← Option.some.inj e]
      simp [Thunk.state])
  obj := by
    show Inv0 (slotOf (Function.update m.heap a x)) (m.trace ++ (evs1 ++ _ :: evs2)) m.nextOid
    have e : m.trace ++ (evs1 ++ Event.destructed T o a :: evs2)
        = ((m.trace ++ evs1) ++ [Event.destructed T o a]) ++ evs2 := by simp
    have e2 : objOf x = none := by
      rcases hx with rfl | rfl <;> rfl
    rw [slotOf_update, e, e2]
    exact (((h.obj.emit_dispatches evs1 he1).destruct_obj T a o hslot).emit_dispatches evs2 he2)

/-- An operation that destructs the object `o` of container `a` and then
constructs a `U` in its buffer. -/
theorem Inv.replacing {V W : Type} (m : Machine V W) (h : Inv m) (a : Addr) (T U : TypeKey)
    (o : Nat) (v : V) (w : W) (evs1 evs2 : List Event)
    (hslot : slotOf m.heap a = some o)
    (he1 : ∀ e ∈ evs1, e.isDispatch = true ∨ ∃ T o a, e = .invoked T o a)
    (he2 : ∀ e ∈ evs2, e.isDispatch = true ∨ ∃ T o a, e = .invoked T o a) :
    Inv { heap := Function.update m.heap a
            (some { _storage := some ⟨U, v, m.nextOid⟩, _vtable := some (.gen U) })
          world := w
          trace := m.trace ++ (evs1 ++ Event.destructed T o a :: (evs2 ++
            [Event.constructed U m.nextOid a]))
          nextOid := m.nextOid + 1 } where
  wf := wf_update m.heap h.wf a _ (fun th e => by
    rw [← Option.some.inj e]
    simp [Thunk.state])
  obj := by
    show Inv0 (slotOf (Function.update m.heap a _)) (m.trace ++ (evs1 ++ _ :: (evs2 ++ _)))
      (m.nextOid + 1)
    have e : m.trace ++ (evs1 ++ Event.destructed T o a :: (evs2 ++
          [Event.constructed U m.nextOid a]))
        = (((m.trace ++ evs1) ++ [Event.destructed T o a]) ++ evs2)
            ++ [Event.constructed U m.nextOid a] := by simp
    have h1 := ((((h.obj.emit_dispatches evs1 he1).destruct_obj T a o hslot).emit_dispatches evs2
      he2).construct_obj U a (Function.update_same a none (slotOf m.heap)))
    rw [Function.update_idem] at h1
    rw [slotOf_update, e]
    exact h1

theorem Inv.machine_init {V W : Type} (w : W) : Inv (Machine.init w : Machine V W) where
  wf := fun a th h => by simp [Machine.init] at h
  obj := Inv0.initial

theorem dispatch_events_one (e : Event) (he : e.isDispatch = true) :
    ∀ e1 ∈ [e], e1.isDispatch = true ∨ ∃ T o a, e1 = .invoked T o a := by
  intro e1 h1
  rw [List.mem_singleton.1 h1]
  exact Or.inl he

theorem dispatch_events_two (e e2 : Event) (he : e.isDispatch = true)
    (he2 : e2.isDispatch = true ∨ ∃ T o a, e2 = .invoked T o a) :
    ∀ e1 ∈ [e, e2], e1.isDispatch = true ∨ ∃ T o a, e1 = .invoked T o a := by
  intro e1 h1
  simp only [List.mem_cons, List.mem_singleton, List.not_mem_nil, or_false] at h1
  rcases h1 with rfl | rfl
  · exact Or.inl he
  · exact he2

theorem dispatch_events_nil :
    ∀ e1 ∈ ([] : List Event), e1.isDispatch = true ∨ ∃ T o a, e1 = .invoked T o a := by
  intro e1 h1
  simp at h1

theorem Inv.ctor_default_keeps {V W : Type} (m : Machine V W) (h : Inv m) (a : Addr) :
    (∃ m1, Thunk.ctor_default a m = .ok m1 ∧ Inv m1)
      ∨ Thunk.ctor_default a m = .error .misuse := by
  cases ha : m.heap a with
  | some th => right; simp [Thunk.ctor_default, ha]
  | none =>
    left
    rw [Thunk.ctor_default_fresh a m ha]
    refine ⟨_, rfl, ?_⟩
    have := Inv.keep m h a (some { _storage := none, _vtable := some .noop }) m.world []
      (fun th e => by rw [← Option.some.inj e]; simp [Thunk.state])
      (by simp [slotOf, ha, objOf]) dispatch_events_nil
    simpa [Machine.store] using this

theorem Inv.wrap_keeps {V W ε : Type} (env : Env V W ε) (T : TypeKey) (f : V) (a : Addr)
    (m : Machine V W) (h : Inv m) :
    (∃ m1, Thunk.wrap env T f a m = .ok m1 ∧ Inv m1)
      ∨ Thunk.wrap env T f a m = .error .misuse
      ∨ Thunk.wrap env T f a m = .error .illFormed := by
  by_cases hfit : (env.typeOf T).size ≤ env.BufferSize
  · cases ha : m.heap a with
    | some th => right; left; simp [Thunk.wrap, ha, hfit]
    | none =>
      left
      rw [Thunk.wrap_fresh env T f a m hfit ha]
      refine ⟨_, rfl, ?_⟩
      have := Inv.constructing m h a T ((env.typeOf T).copyCtor f m.world).1
        ((env.typeOf T).copyCtor f m.world).2 [] (by simp [slotOf, ha, objOf])
        dispatch_events_nil
      simpa using this
  · right; right; simp [Thunk.wrap, hfit]

theorem Inv.ctor_copy_keeps {V W ε : Type} (env : Env V W ε) (a b : Addr)
    (m : Machine V W) (h : Inv m) :
    (∃ m1, Thunk.ctor_copy env a b m = .ok m1 ∧ Inv m1)
      ∨ Thunk.ctor_copy env a b m = .error .misuse := by
  cases ha : m.heap a with
  | some th => right; simp [Thunk.ctor_copy, ha]
  | none =>
    cases hb : m.heap b with
    | none => right; simp [Thunk.ctor_copy, ha, hb]
    | some src =>
      left
      rcases Thunk.state_cases src (h.wf b src hb) with rfl | ⟨T, v, o, rfl⟩
      · rw [Thunk.ctor_copy_empty env a b m ha hb]
        refine ⟨_, rfl, ?_⟩
        exact Inv.keep m h a (some { _storage := none, _vtable := some .noop }) m.world
          [Event.copy .noop a b]
          (fun th e => by rw [← Option.some.inj e]; simp [Thunk.state])
          (by simp [slotOf, ha, objOf]) (dispatch_events_one _ rfl)
      · rw [Thunk.ctor_copy_bound env a b m T v o ha hb]
        refine ⟨_, rfl, ?_⟩
        have := Inv.constructing m h a T ((env.typeOf T).copyCtor v m.world).1
          ((env.typeOf T).copyCtor v m.world).2 [Event.copy (.gen T) a b]
          (by simp [slotOf, ha, objOf]) (dispatch_events_one _ rfl)
        simpa using this

theorem Inv.dtor_keeps {V W ε : Type} (env : Env V W ε) (a : Addr)
    (m : Machine V W) (h : Inv m) :
    (∃ m1, Thunk.dtor env a m = .ok m1 ∧ Inv m1)
      ∨ Thunk.dtor env a m = .error .misuse := by
  cases ha : m.heap a with
  | none => right; simp [Thunk.dtor, ha]
  | some th =>
    left
    rcases Thunk.state_cases th (h.wf a th ha) with rfl | ⟨T, v, o, rfl⟩
    · rw [Thunk.dtor_empty env a m ha]
      refine ⟨_, rfl, ?_⟩
      exact Inv.keep m h a none m.world [Event.destroy .noop a]
        (fun th e => Option.noConfusion e)
        (by simp [slotOf, ha, objOf]) (dispatch_events_one _ rfl)
    · rw [Thunk.dtor_bound env a m T v o ha]
      refine ⟨_, rfl, ?_⟩
      have := Inv.destroying m h a T o none ((env.typeOf T).dtor v m.world)
        [Event.destroy (.gen T) a] [] (Or.inl rfl) (by simp [slotOf, ha, objOf])
        (dispatch_events_one _ rfl) dispatch_events_nil
      simpa using this

theorem Inv.operator_assign_keeps {V W ε : Type} (env : Env V W ε) (a b : Addr)
    (m : Machine V W) (h : Inv m) :
    (∃ m1, Thunk.operator_assign env a b m = .ok m1 ∧ Inv m1)
      ∨ Thunk.operator_assign env a b m = .error .misuse := by
  by_cases hab : a = b
  · left
    exact ⟨m, by simp [Thunk.operator_assign, hab], h⟩
  · have hba : b ≠ a := fun e => hab e.symm
    cases ha : m.heap a with
    | none => right; simp [Thunk.operator_assign, ha, hab]
    | some th =>
      cases hb : m.heap b with
      | none =>
        right
        rcases Thunk.state_cases th (h.wf a th ha) with rfl | ⟨T, v, o, rfl⟩
        · simp [Thunk.operator_assign, vtable_destroy, Env.vtable, NoopTable.destroy,
            Machine.emit, ha, hb, hab]
        · simp [Thunk.operator_assign, vtable_destroy, Env.vtable,
            ThunkVTableGenerator.destroy, Machine.emit, ha, hb, hab, hba]
      | some src =>
        left
        rcases Thunk.state_cases th (h.wf a th ha) with rfl | ⟨T, v, o, rfl⟩
        · rcases Thunk.state_cases src (h.wf b src hb) with rfl | ⟨U, u, p, rfl⟩
          · rw [Thunk.operator_assign_ee env a b m hab ha hb]
            refine ⟨_, rfl, ?_⟩
            exact Inv.keep m h a (some { _storage := none, _vtable := some .noop }) m.world
              [Event.destroy .noop a, Event.copy .noop a b]
              (fun th e => by rw [← Option.some.inj e]; simp [Thunk.state])
              (by simp [slotOf, ha, objOf]) (dispatch_events_two _ _ rfl (Or.inl rfl))
          · rw [Thunk.operator_assign_eb env a b m U u p hab ha hb]
            refine ⟨_, rfl, ?_⟩
            have := Inv.constructing m h a U ((env.typeOf U).copyCtor u m.world).1
              ((env.typeOf U).copyCtor u m.world).2
              [Event.destroy .noop a, Event.copy (.gen U) a b]
              (by simp [slotOf, ha, objOf]) (dispatch_events_two _ _ rfl (Or.inl rfl))
            simpa using this
        · rcases Thunk.state_cases src (h.wf b src hb) with rfl | ⟨U, u, p, rfl⟩
          · rw [Thunk.operator_assign_be env a b m T v o hab ha hb]
            refine ⟨_, rfl, ?_⟩
            have := Inv.destroying m h a T o (some { _storage := none, _vtable := some .noop })
              ((env.typeOf T).dtor v m.world)
              [Event.destroy (.gen T) a] [Event.copy .noop a b] (Or.inr rfl)
              (by simp [slotOf, ha, objOf])
              (dispatch_events_one _ rfl) (dispatch_events_one _ rfl)
            simpa using this
          · rw [Thunk.operator_assign_bb env a b m T U v u o p hab ha hb]
            refine ⟨_, rfl, ?_⟩
            have := Inv.replacing m h a T U o
              ((env.typeOf U).copyCtor u ((env.typeOf T).dtor v m.world)).1
              ((env.typeOf U).copyCtor u ((env.typeOf T).dtor v m.world)).2
              [Event.destroy (.gen T) a] [Event.copy (.gen U) a b]
              (by simp [slotOf, ha, objOf])
              (dispatch_events_one _ rfl) (dispatch_events_one _ rfl)
            simpa using this

theorem Inv.operator_call_keeps {V W ε : Type} (env : Env V W ε) (a : Addr)
    (m : Machine V W) (h : Inv m) :
    (∃ m1 r, Thunk.operator_call env a m = .ok (m1, r) ∧ Inv m1)
      ∨ Thunk.operator_call env a m = .error .misuse := by
  cases ha : m.heap a with
  | none => right; simp [Thunk.operator_call, ha]
  | some th =>
    left
    rcases Thunk.state_cases th (h.wf a th ha) with rfl | ⟨T, v, o, rfl⟩
    · rw [Thunk.operator_call_empty env a m ha]
      refine ⟨_, _, rfl, ?_⟩
      exact Inv.keep_heap m h m.world [Event.call .noop a] (dispatch_events_one _ rfl)
    · rw [Thunk.operator_call_bound env a m T v o ha]
      refine ⟨_, _, rfl, ?_⟩
      exact Inv.keep m h a
        (some { _storage := some ⟨T, ((env.typeOf T).callOp v m.world).1.1, o⟩,
                _vtable := some (.gen T) })
        ((env.typeOf T).callOp v m.world).1.2
        [Event.call (.gen T) a, Event.invoked T o a]
        (fun th e => by rw [← Option.some.inj e]; simp [Thunk.state])
        (by simp [slotOf, ha, objOf])
        (dispatch_events_two _ _ rfl (Or.inr ⟨T, o, a, rfl⟩))

/-- Every operation of a client, from a state that satisfies the invariant,
either succeeds and keeps the invariant, or is refused as a misuse by the client
or as ill-formed; in particular it never runs into undefined behaviour. -/
theorem Inv.step_keeps {V W ε : Type} (env : Env V W ε) (op : Op V) (m : Machine V W)
    (h : Inv m) :
    (∃ m1, step env op m = .ok m1 ∧ Inv m1)
      ∨ step env op m = .error .misuse ∨ step env op m = .error .illFormed := by
  cases op with
  | ctor_default a =>
    rcases Inv.ctor_default_keeps m h a with h1 | h1
    · exact Or.inl h1
    · exact Or.inr (Or.inl h1)
  | ctor_callable n f a => exact Inv.wrap_keeps env (.cls n) f a m h
  | ctor_function f a => exact Inv.wrap_keeps env .fnptr f a m h
  | ctor_copy a b =>
    rcases Inv.ctor_copy_keeps env a b m h with h1 | h1
    · exact Or.inl h1
    · exact Or.inr (Or.inl h1)
  | operator_assign a b =>
    rcases Inv.operator_assign_keeps env a b m h with h1 | h1
    · exact Or.inl h1
    · exact Or.inr (Or.inl h1)
  | operator_call a =>
    rcases Inv.operator_call_keeps env a m h with ⟨m1, r, h1, h2⟩ | h1
    · exact Or.inl ⟨m1, by simp [eq.step, h1], h2⟩
    · exact Or.inr (Or.inl (by simp [eq.step, h1]))
  | dtor a =>
    rcases Inv.dtor_keeps env a m h with h1 | h1
    · exact Or.inl h1
    · exact Or.inr (Or.inl h1)

theorem Inv.run_keeps {V W ε : Type} (env : Env V W ε) (ops : List (Op V)) (m : Machine V W)
    (h : Inv m) :
    (∃ m1, run env ops m = .ok m1 ∧ Inv m1)
      ∨ run env ops m = .error .misuse ∨ run env ops m = .error .illFormed := by
  induction ops generalizing m with
  | nil => exact Or.inl ⟨m, rfl, h⟩
  | cons op ops ih =>
    rcases Inv.step_keeps env op m h with ⟨m1, h1, h2⟩ | h1 | h1
    · simpa [eq.run, h1] using ih m1 h2
    · exact Or.inr (Or.inl (by simp [eq.run, h1]))
    · exact Or.inr (Or.inr (by simp [eq.run, h1]))

theorem Inv.of_run {V W ε : Type} (env : Env V W ε) (ops : List (Op V)) (w : W)
    (m : Machine V W) (h : eq.run env ops (Machine.init w) = .ok m) : Inv m := by
  rcases Inv.run_keeps env ops (Machine.init w) (Inv.machine_init w) with ⟨m1, h1, h2⟩ | h1 | h1
  · rw [h] at h1
    cases h1
    exact h2
  · rw [h] at h1; cases h1
  · rw [h] at h1; cases h1

/-! ## Invariants of the reachable states -/

/-- C7. In every state reached from the start by the public operations, the
table reference of every container alive is non-null.  From such a state:
default construction at a fresh address gives the no-op table; construction from
a callable or from a function pointer that fits gives the table generated for its
type; copy construction (which starts from a null table reference) and copy
assignment succeed and leave the new or assigned container with the source's
table reference, which is non-null. -/
theorem vtable_never_null {V W ε : Type} (env : Env V W ε) (ops : List (Op V)) (w : W)
    (m : Machine V W) (h : run env ops (Machine.init w) = .ok m) :
    (∀ a th, m.heap a = some th → th._vtable ≠ none)
      ∧ (∀ a, m.heap a = none →
          ∃ m1, Thunk.ctor_default a m = .ok m1
            ∧ (m1.heap a).map Thunk._vtable = some (some .noop))
      ∧ (∀ n f a, m.heap a = none → (env.classes n).size ≤ env.BufferSize →
          ∃ m1, Thunk.ctor_callable env n f a m = .ok m1
            ∧ (m1.heap a).map Thunk._vtable = some (some (.gen (.cls n))))
      ∧ (∀ f a, m.heap a = none → env.fnptrSize ≤ env.BufferSize →
          ∃ m1, Thunk.ctor_function env f a m = .ok m1
            ∧ (m1.heap a).map Thunk._vtable = some (some (.gen .fnptr)))
      ∧ (∀ a b src, m.heap a = none → m.heap b = some src →
          ∃ m1 th, Thunk.ctor_copy env a b m = .ok m1 ∧ m1.heap a = some th
            ∧ th._vtable = src._vtable ∧ th._vtable ≠ none)
      ∧ (∀ a b tgt src, m.heap a = some tgt → m.heap b = some src →
          ∃ m1 th, Thunk.operator_assign env a b m = .ok m1 ∧ m1.heap a = some th
            ∧ th._vtable = src._vtable ∧ th._vtable ≠ none) := by
  have hinv := Inv.of_run env ops w m h
  refine ⟨?_, ?_, ?_, ?_, ?_, ?_⟩
  · intro a th ha
    rcases Thunk.state_cases th (hinv.wf a th ha) with rfl | ⟨T, v, o, rfl⟩ <;> simp
  · intro a ha
    rw [Thunk.ctor_default_fresh a m ha]
    exact ⟨_, rfl, by simp [Machine.store]⟩
  · intro n f a ha hfit
    rw [Thunk.ctor_callable, Thunk.wrap_fresh env (.cls n) f a m hfit ha]
    exact ⟨_, rfl, by simp⟩
  · intro f a ha hfit
    rw [Thunk.ctor_function, Thunk.wrap_fresh env .fnptr f a m hfit ha]
    exact ⟨_, rfl, by simp⟩
  · intro a b src ha hb
    rcases Thunk.state_cases src (hinv.wf b src hb) with rfl | ⟨T, v, o, rfl⟩
    · rw [Thunk.ctor_copy_empty env a b m ha hb]
      exact ⟨_, _, rfl, Function.update_same _ _ _, rfl, by simp⟩
    · rw [Thunk.ctor_copy_bound env a b m T v o ha hb]
      exact ⟨_, _, rfl, Function.update_same _ _ _, rfl, by simp⟩
  · intro a b tgt src ha hb
    by_cases hab : a = b
    · subst hab
      rw [ha] at hb
      cases hb
      refine ⟨m, tgt, by simp [Thunk.operator_assign], ha, rfl, ?_⟩
      rcases Thunk.state_cases tgt (hinv.wf a tgt ha) with rfl | ⟨T, v, o, rfl⟩ <;> simp
    · rcases Thunk.state_cases tgt (hinv.wf a tgt ha) with rfl | ⟨T, v, o, rfl⟩
      · rcases Thunk.state_cases src (hinv.wf b src hb) with rfl | ⟨U, u, p, rfl⟩
        · rw [Thunk.operator_assign_ee env a b m hab ha hb]
          exact ⟨_, _, rfl, Function.update_same _ _ _, rfl, by simp⟩
        · rw [Thunk.operator_assign_eb env a b m U u p hab ha hb]
          exact ⟨_, _, rfl, Function.update_same _ _ _, rfl, by simp⟩
      · rcases Thunk.state_cases src (hinv.wf b src hb) with rfl | ⟨U, u, p, rfl⟩
        · rw [Thunk.operator_assign_be env a b m T v o hab ha hb]
          exact ⟨_, _, rfl, Function.update_same _ _ _, rfl, by simp⟩
        · rw [Thunk.operator_assign_bb env a b m T U v u o p hab ha hb]
          exact ⟨_, _, rfl, Function.update_same _ _ _, rfl, by simp⟩

/-- C9. In every state reached from the start by the public operations: the
object in a container's buffer is of the type the container's table was generated
for, a table generated for `T` comes with a live `T` in the buffer, and no object
was ever constructed over a live one (so a buffer never holds two).  From such a
state a copy assignment between distinct containers succeeds and dispatches
exactly two table operations: `destroy` of the target's own old table, then
`copy` of the source's table. -/
theorem type_consistency {V W ε : Type} (env : Env V W ε) (ops : List (Op V)) (w : W)
    (m : Machine V W) (h : run env ops (Machine.init w) = .ok m) :
    (∀ a th obj, m.heap a = some th → th._storage = some obj →
        th._vtable = some (.gen obj.ty))
      ∧ (∀ a th T, m.heap a = some th → th._vtable = some (.gen T) →
          ∃ obj, th._storage = some obj ∧ obj.ty = T)
      ∧ (∀ e ∈ m.trace, Event.isClobber e = false)
      ∧ (∀ a b tgt src, a ≠ b → m.heap a = some tgt → m.heap b = some src →
          ∃ vt vs m1, tgt._vtable = some vt ∧ src._vtable = some vs
            ∧ Thunk.operator_assign env a b m = .ok m1
            ∧ (m1.trace.drop m.trace.length).filter Event.isDispatch
                = [Event.destroy vt a, Event.copy vs a b]) := by
  have hinv := Inv.of_run env ops w m h
  refine ⟨?_, ?_, hinv.obj.clean, ?_⟩
  · intro a th obj ha hobj
    rcases Thunk.state_cases th (hinv.wf a th ha) with rfl | ⟨T, v, o, rfl⟩
    · simp at hobj
    · simp at hobj
      subst hobj
      rfl
  · intro a th T ha hT
    rcases Thunk.state_cases th (hinv.wf a th ha) with rfl | ⟨U, v, o, rfl⟩
    · simp at hT
    · simp at hT
      subst hT
      exact ⟨_, rfl, rfl⟩
  · intro a b tgt src hab ha hb
    rcases Thunk.state_cases tgt (hinv.wf a tgt ha) with rfl | ⟨T, v, o, rfl⟩
    · rcases Thunk.state_cases src (hinv.wf b src hb) with rfl | ⟨U, u, p, rfl⟩
      · rw [Thunk.operator_assign_ee env a b m hab ha hb]
        exact ⟨_, _, _, rfl, rfl, rfl, by simp [Event.isDispatch]⟩
      · rw [Thunk.operator_assign_eb env a b m U u p hab ha hb]
        exact ⟨_, _, _, rfl, rfl, rfl, by simp [Event.isDispatch]⟩
    · rcases Thunk.state_cases src (hinv.wf b src hb) with rfl | ⟨U, u, p, rfl⟩
      · rw [Thunk.operator_assign_be env a b m T v o hab ha hb]
        exact ⟨_, _, _, rfl, rfl, rfl, by simp [Event.isDispatch]⟩
      · rw [Thunk.operator_assign_bb env a b m T U v u o p hab ha hb]
        exact ⟨_, _, _, rfl, rfl, rfl, by simp [Event.isDispatch]⟩

/-- Discipline of the plain semantics, in which no copy constructor and no
destructor fails: a run never reaches undefined behaviour; at every state
reached no object was destructed twice or without having been constructed, each
identity handed out was constructed once, the objects alive were not destructed;
and once every container has been destructed, every object constructed was
destructed exactly once. -/
theorem plain_run_discipline {V W ε : Type} (env : Env V W ε) (ops : List (Op V)) (w : W) :
    run env ops (Machine.init w) ≠ .error .undefined
      ∧ ∀ m, run env ops (Machine.init w) = .ok m →
          (∀ o, destructions o m.trace ≤ constructions o m.trace
              ∧ constructions o m.trace ≤ 1)
            ∧ (∀ o, constructions o m.trace = 1 ↔ o < m.nextOid)
            ∧ (∀ a o, slotOf m.heap a = some o →
                constructions o m.trace = 1 ∧ destructions o m.trace = 0)
            ∧ ((∀ a, m.heap a = none) →
                ∀ o, o < m.nextOid →
                  constructions o m.trace = 1 ∧ destructions o m.trace = 1) := by
  constructor
  · rcases Inv.run_keeps env ops (Machine.init w) (Inv.machine_init w) with ⟨m1, h1, -⟩ | h1 | h1 <;>
      simp [h1]
  · intro m h
    have hinv := Inv.of_run env ops w m h
    have hb : ∀ o, constructions o m.trace = 1 ↔ o < m.nextOid := by
      intro o
      rw [hinv.obj.born o]
      by_cases e : o < m.nextOid <;> simp [e]
    refine ⟨?_, hb, ?_, ?_⟩
    · intro o
      have h1 := hinv.obj.once o
      have h2 := hinv.obj.born o
      by_cases e : o < m.nextOid
      · rw [if_pos e] at h2
        omega
      · rw [if_neg e] at h2
        have h3 : ¬ destructions o m.trace = 1 := fun e1 => e ((hinv.obj.dead o).1 e1).1
        omega
    · intro a o ha
      refine ⟨(hb o).2 (hinv.obj.fresh a o ha), ?_⟩
      have h1 := hinv.obj.once o
      have h3 : ¬ destructions o m.trace = 1 := fun e1 => ((hinv.obj.dead o).1 e1).2 a ha
      omega
    · intro hempty o ho
      refine ⟨(hb o).2 ho, (hinv.obj.dead o).2 ⟨ho, fun a ha => ?_⟩⟩
      simp [slotOf, hempty a, objOf] at ha

/-- Witness for C7: the sample client, run up to its invocations, reaches a
state from which the theorem speaks. -/
theorem vtable_never_null_witness :
    ∃ m, run demoEnv (demoOps.take 10) (Machine.init { counter := 0, dtors := 0 }) = .ok m
      ∧ ((∀ a th, m.heap a = some th → th._vtable ≠ none)
      ∧ (∀ a, m.heap a = none →
          ∃ m1, Thunk.ctor_default a m = .ok m1
            ∧ (m1.heap a).map Thunk._vtable = some (some .noop))
      ∧ (∀ n f a, m.heap a = none → (demoEnv.classes n).size ≤ demoEnv.BufferSize →
          ∃ m1, Thunk.ctor_callable demoEnv n f a m = .ok m1
            ∧ (m1.heap a).map Thunk._vtable = some (some (.gen (.cls n))))
      ∧ (∀ f a, m.heap a = none → demoEnv.fnptrSize ≤ demoEnv.BufferSize →
          ∃ m1, Thunk.ctor_function demoEnv f a m = .ok m1
            ∧ (m1.heap a).map Thunk._vtable = some (some (.gen .fnptr)))
      ∧ (∀ a b src, m.heap a = none → m.heap b = some src →
          ∃ m1 th, Thunk.ctor_copy demoEnv a b m = .ok m1 ∧ m1.heap a = some th
            ∧ th._vtable = src._vtable ∧ th._vtable ≠ none)
      ∧ (∀ a b tgt src, m.heap a = some tgt → m.heap b = some src →
          ∃ m1 th, Thunk.operator_assign demoEnv a b m = .ok m1 ∧ m1.heap a = some th
            ∧ th._vtable = src._vtable ∧ th._vtable ≠ none)) :=
  ⟨_, rfl, vtable_never_null demoEnv (demoOps.take 10) { counter := 0, dtors := 0 } _ rfl⟩

/-- Witness for C9 on the sample client, run up to its invocations. -/
theorem type_consistency_witness :
    ∃ m, run demoEnv (demoOps.take 10) (Machine.init { counter := 0, dtors := 0 }) = .ok m
      ∧ ((∀ a th obj, m.heap a = some th → th._storage = some obj →
        th._vtable = some (.gen obj.ty))
      ∧ (∀ a th T, m.heap a = some th → th._vtable = some (.gen T) →
          ∃ obj, th._storage = some obj ∧ obj.ty = T)
      ∧ (∀ e ∈ m.trace, Event.isClobber e = false)
      ∧ (∀ a b tgt src, a ≠ b → m.heap a = some tgt → m.heap b = some src →
          ∃ vt vs m1, tgt._vtable = some vt ∧ src._vtable = some vs
            ∧ Thunk.operator_assign demoEnv a b m = .ok m1
            ∧ (m1.trace.drop m.trace.length).filter Event.isDispatch
                = [Event.destroy vt a, Event.copy vs a b])) :=
  ⟨_, rfl, type_consistency demoEnv (demoOps.take 10) { counter := 0, dtors := 0 } _ rfl⟩

/-! ## Failure of an invocation -/

/-- C11. The call operator of a `BOUND` container returns the failure of the
held callable, unchanged: it fails exactly when the callable, invoked on the held
value in the current world, fails, and then with that very failure.  The call
operator of an `EMPTY` container does not fail. -/
theorem operator_call_failure {V W ε : Type} (env : Env V W ε) (m : Machine V W) (a : Addr)
    (th : Thunk V) (ha : m.heap a = some th) :
    (∀ T, th.state = some (.BOUND T) →
        ∃ v o m1 r, th._storage = some ⟨T, v, o⟩
          ∧ Thunk.operator_call env a m = .ok (m1, r)
          ∧ r = ((env.typeOf T).callOp v m.world).2
          ∧ (r.isSome ↔ ((env.typeOf T).callOp v m.world).2.isSome)
          ∧ ∀ e, r = some e ↔ ((env.typeOf T).callOp v m.world).2 = some e)
      ∧ (th.state = some .EMPTY →
          ∃ m1, Thunk.operator_call env a m = .ok (m1, none)) := by
  constructor
  · intro T hT
    obtain ⟨v, o, rfl⟩ := (Thunk.state_eq_bound th T).1 hT
    rw [Thunk.operator_call_bound env a m T v o ha]
    exact ⟨v, o, _, _, rfl, rfl, rfl, Iff.rfl, fun e => Iff.rfl⟩
  · intro hE
    have e := (Thunk.state_eq_empty th).1 hE
    subst e
    rw [Thunk.operator_call_empty env a m ha]
    exact ⟨_, rfl⟩

/-- Witness for C11: a callable of class 7 of the sample program fails with
`"boom"` whenever it is invoked; wrapped in container 0, the call operator of the
container fails with `"boom"`. -/
theorem operator_call_failure_witness :
    ∃ m, run demoEnv [.ctor_callable 7 0 0] (Machine.init { counter := 0, dtors := 0 }) = .ok m
      ∧ ((∀ T, (Thunk.mk (some ⟨.cls 7, 0, 0⟩) (some (.gen (.cls 7)))).state
              = some (.BOUND T) →
          ∃ v o m1 r, (Thunk.mk (some ⟨.cls 7, 0, 0⟩) (some (.gen (.cls 7))))._storage
                = some ⟨T, v, o⟩
            ∧ Thunk.operator_call demoEnv 0 m = .ok (m1, r)
            ∧ r = ((demoEnv.typeOf T).callOp v m.world).2
            ∧ (r.isSome ↔ ((demoEnv.typeOf T).callOp v m.world).2.isSome)
            ∧ ∀ e, r = some e ↔ ((demoEnv.typeOf T).callOp v m.world).2 = some e)
        ∧ ((Thunk.mk (some ⟨.cls 7, 0, 0⟩) (some (.gen (.cls 7)))).state = some .EMPTY →
            ∃ m1, Thunk.operator_call demoEnv 0 m = .ok (m1, none)))
      ∧ ∃ m1, Thunk.operator_call demoEnv 0 m = .ok (m1, some "boom") :=
  ⟨_, rfl, operator_call_failure demoEnv _ 0 _ rfl, _, rfl⟩

/-! ## Functions: pointers and references -/

/-- C12. For a function `g` and a fresh address, when a function pointer fits in
the buffer: construction from a pointer to `g` and construction from a reference
to `g` succeed with the same resulting state; invoking the container calls `g`
once, in the current world (the world and the failure are those of `g`); the
container and every other container are unchanged, and the dispatch and the
invocation are all that is recorded. -/
theorem function_pointer_reference {V W ε : Type} (env : Env V W ε) (g : V) (a : Addr)
    (m : Machine V W) (hfit : env.fnptrSize ≤ env.BufferSize) (ha : m.heap a = none) :
    ∃ m1, Thunk.ctor_function_arg env (.pointer g) a m = .ok m1
      ∧ Thunk.ctor_function_arg env (.reference g) a m = .ok m1
      ∧ m1.heap a = some { _storage := some ⟨.fnptr, g, m.nextOid⟩,
                           _vtable := some (.gen .fnptr) }
      ∧ m1.world = m.world
      ∧ ∃ m2, Thunk.operator_call env a m1 = .ok (m2, (env.functions g m1.world).2)
          ∧ m2.world = (env.functions g m1.world).1
          ∧ m2.heap = m1.heap
          ∧ m2.trace = m1.trace
              ++ [Event.call (.gen .fnptr) a, Event.invoked .fnptr m.nextOid a] := by
  have hw := Thunk.wrap_fresh env .fnptr g a m hfit ha
  refine ⟨_, hw, hw, Function.update_same _ _ _, rfl, ?_⟩
  rw [Thunk.operator_call_bound env a _ .fnptr g m.nextOid (Function.update_same _ _ _)]
  refine ⟨_, rfl, rfl, ?_, rfl⟩
  simp [Env.typeOf]

/-- Witness for C12 on the sample program: the function designated by the
pointer value 3 adds 3 to the external counter. -/
theorem function_pointer_reference_witness :
    ∃ m1, Thunk.ctor_function_arg demoEnv (.pointer 3) 4 demoMachine = .ok m1
      ∧ Thunk.ctor_function_arg demoEnv (.reference 3) 4 demoMachine = .ok m1
      ∧ m1.heap 4 = some { _storage := some ⟨.fnptr, 3, demoMachine.nextOid⟩,
                           _vtable := some (.gen .fnptr) }
      ∧ m1.world = demoMachine.world
      ∧ ∃ m2, Thunk.operator_call demoEnv 4 m1 = .ok (m2, (demoEnv.functions 3 m1.world).2)
          ∧ m2.world = (demoEnv.functions 3 m1.world).1
          ∧ m2.heap = m1.heap
          ∧ m2.trace = m1.trace
              ++ [Event.call (.gen .fnptr) 4, Event.invoked .fnptr demoMachine.nextOid 4] :=
  function_pointer_reference demoEnv 3 4 demoMachine (by decide) rfl

/-! ## The two steps of a copy assignment -/

theorem Thunk.operator_assign_steps {V W ε : Type} (env : Env V W ε) (this other : Addr)
    (m : Machine V W) (hne : this ≠ other) :
    Thunk.operator_assign env this other m
      = (Thunk.operator_assign_destroy env this m).bind
          (Thunk.operator_assign_copy env this other) := by
  unfold Thunk.operator_assign Thunk.operator_assign_destroy
  rw [if_neg hne]
  cases hh : m.heap this with
  | none => rfl
  | some th =>
    simp only []
    cases hd : vtable_destroy env th._vtable this m with
    | error e => rfl
    | ok m1 => rfl

theorem Thunk.operator_assign_destroy_bound {V W ε : Type} (env : Env V W ε) (this : Addr)
    (m : Machine V W) (T : TypeKey) (v : V) (o : Nat)
    (h : m.heap this = some { _storage := some ⟨T, v, o⟩, _vtable := some (.gen T) }) :
    Thunk.operator_assign_destroy env this m
      = .ok { heap := Function.update m.heap this
                (some { _storage := none, _vtable := some (.gen T) })
              world := (env.typeOf T).dtor v m.world
              trace := m.trace ++ [Event.destroy (.gen T) this, Event.destructed T o this]
              nextOid := m.nextOid } := by
  simp [Thunk.operator_assign_destroy, vtable_destroy, Env.vtable,
    ThunkVTableGenerator.destroy, Machine.emit, h]

theorem Thunk.operator_assign_destroy_empty {V W ε : Type} (env : Env V W ε) (this : Addr)
    (m : Machine V W)
    (h : m.heap this = some { _storage := none, _vtable := some .noop }) :
    Thunk.operator_assign_destroy env this m
      = .ok { heap := m.heap
              world := m.world
              trace := m.trace ++ [Event.destroy .noop this]
              nextOid := m.nextOid } := by
  simp [Thunk.operator_assign_destroy, vtable_destroy, Env.vtable, NoopTable.destroy,
    Machine.emit, h]

/-- C13 fails as stated: in the sample state container 0 is bound to a class 0
value.  In the assignment of container 1 to container 0, after the destroy step
the buffer of container 0 is empty and its table reference is still the table
generated for class 0, not the no-op table: container 0 is neither `EMPTY` nor
`BOUND`. -/
theorem assign_interval_not_empty :
    Thunk.operator_assign demoEnv 0 1 demoMachine
        = (Thunk.operator_assign_destroy demoEnv 0 demoMachine).bind
            (Thunk.operator_assign_copy demoEnv 0 1)
      ∧ ∃ m1, Thunk.operator_assign_destroy demoEnv 0 demoMachine = .ok m1
          ∧ m1.heap 0 = some { _storage := none, _vtable := some (.gen (.cls 0)) }
          ∧ (m1.heap 0).bind Thunk._vtable ≠ some .noop
          ∧ (m1.heap 0).bind Thunk.state ≠ some .EMPTY :=
  ⟨Thunk.operator_assign_steps demoEnv 0 1 demoMachine (by decide), _, rfl, rfl,
    by decide, by decide⟩

/-- C13, amended. A copy assignment between distinct containers, each `EMPTY` or
`BOUND`, is its destroy step followed by its copy step, and both succeed.
Between the two the target's buffer holds no object and its table reference is
still the one it had before the assignment, so the target is in the no-op state
in that interval exactly when it was `EMPTY` before; the source is untouched.
After the copy step the target is `EMPTY` or `BOUND`, with the source's table
reference and in the source's state. -/
theorem assign_interval {V W ε : Type} (env : Env V W ε) (m : Machine V W)
    (target source : Addr) (tgt src : Thunk V) (hne : target ≠ source)
    (ht : m.heap target = some tgt) (hs : m.heap source = some src)
    (htw : tgt.state ≠ none) (hsw : src.state ≠ none) :
    ∃ m1 m2 th2, Thunk.operator_assign_destroy env target m = .ok m1
      ∧ Thunk.operator_assign_copy env target source m1 = .ok m2
      ∧ Thunk.operator_assign env target source m = .ok m2
      ∧ m1.heap target = some { _storage := none, _vtable := tgt._vtable }
      ∧ ((m1.heap target).bind Thunk.state = some .EMPTY ↔ tgt.state = some .EMPTY)
      ∧ m1.heap source = some src
      ∧ m2.heap target = some th2 ∧ th2.state ≠ none
      ∧ th2._vtable = src._vtable ∧ th2.state = src.state := by
  have hne2 : source ≠ target := fun e => hne e.symm
  have hsteps := Thunk.operator_assign_steps env target source m hne
  rcases Thunk.state_cases tgt htw with rfl | ⟨T, v, o, rfl⟩
  · have hd := Thunk.operator_assign_destroy_empty env target m ht
    rcases Thunk.state_cases src hsw with rfl | ⟨U, u, p, rfl⟩
    · have ha := Thunk.operator_assign_ee env target source m hne ht hs
      rw [hsteps, hd] at ha
      exact ⟨_, _, _, hd, ha, by rw [hsteps, hd]; exact ha, ht, by simp [ht, Thunk.state],
        hs, Function.update_same _ _ _, by simp [Thunk.state], rfl, rfl⟩
    · have ha := Thunk.operator_assign_eb env target source m U u p hne ht hs
      rw [hsteps, hd] at ha
      exact ⟨_, _, _, hd, ha, by rw [hsteps, hd]; exact ha, ht, by simp [ht, Thunk.state],
        hs, Function.update_same _ _ _, by simp [Thunk.state], rfl, rfl⟩
  · have hd := Thunk.operator_assign_destroy_bound env target m T v o ht
    rcases Thunk.state_cases src hsw with rfl | ⟨U, u, p, rfl⟩
    · have ha := Thunk.operator_assign_be env target source m T v o hne ht hs
      rw [hsteps, hd] at ha
      exact ⟨_, _, _, hd, ha, by rw [hsteps, hd]; exact ha, Function.update_same _ _ _,
        by simp [Thunk.state], by simp [hne2, hs],
        Function.update_same _ _ _, by simp [Thunk.state], rfl, rfl⟩
    · have ha := Thunk.operator_assign_bb env target source m T U v u o p hne ht hs
      rw [hsteps, hd] at ha
      exact ⟨_, _, _, hd, ha, by rw [hsteps, hd]; exact ha, Function.update_same _ _ _,
        by simp [Thunk.state], by simp [hne2, hs],
        Function.update_same _ _ _, by simp [Thunk.state], rfl, rfl⟩

/-- Witness for C13 (amended) on the sample state: container 1 is assigned to
container 0. -/
theorem assign_interval_witness :
    ∃ m1 m2 th2, Thunk.operator_assign_destroy demoEnv 0 demoMachine = .ok m1
      ∧ Thunk.operator_assign_copy demoEnv 0 1 m1 = .ok m2
      ∧ Thunk.operator_assign demoEnv 0 1 demoMachine = .ok m2
      ∧ m1.heap 0 = some { _storage := none, _vtable := some (.gen (.cls 0)) }
      ∧ ((m1.heap 0).bind Thunk.state = some .EMPTY
          ↔ (Thunk.mk (some ⟨.cls 0, 5, 0⟩) (some (.gen (.cls 0)))).state = some .EMPTY)
      ∧ m1.heap 1 = some { _storage := some ⟨.cls 2, 7, 1⟩, _vtable := some (.gen (.cls 2)) }
      ∧ m2.heap 0 = some th2 ∧ th2.state ≠ none
      ∧ th2._vtable = some (.gen (.cls 2))
      ∧ th2.state = (Thunk.mk (some ⟨.cls 2, 7, 1⟩) (some (.gen (.cls 2)))).state :=
  assign_interval demoEnv demoMachine 0 1 _ _ (by decide) rfl rfl (by decide) (by decide)

/-! ## What an invocation does -/

/-- C14. The call operator of a container that is `EMPTY` or `BOUND` is one
dispatch of the `call` operation of the container's current table on that
container: that dispatch is the only one recorded, no other container changes,
the table reference of the container stays, and no object is created.  For an
empty container nothing else happens.  For a bound container the held value, the
world and the failure are those the held callable's call produces, and the
invocation of that object is the only other thing recorded: the container keeps
nothing of its own about the call. -/
theorem operator_call_exact {V W ε : Type} (env : Env V W ε) (m : Machine V W) (a : Addr)
    (th : Thunk V) (ha : m.heap a = some th) (hst : th.state ≠ none) :
    ∃ t m1 r, th._vtable = some t
      ∧ Thunk.operator_call env a m = (env.vtable t).call a (m.emit (Event.call t a))
      ∧ Thunk.operator_call env a m = .ok (m1, r)
      ∧ (m1.trace.drop m.trace.length).filter Event.isDispatch = [Event.call t a]
      ∧ (∀ b, b ≠ a → m1.heap b = m.heap b)
      ∧ (∃ th1, m1.heap a = some th1 ∧ th1._vtable = th._vtable)
      ∧ m1.nextOid = m.nextOid
      ∧ (th._storage = none →
          m1.heap a = some th ∧ m1.world = m.world ∧ r = none
            ∧ m1.trace = m.trace ++ [Event.call t a])
      ∧ (∀ T v o, th._storage = some ⟨T, v, o⟩ →
          m1.heap a = some { _storage := some ⟨T, ((env.typeOf T).callOp v m.world).1.1, o⟩
                             _vtable := th._vtable }
            ∧ m1.world = ((env.typeOf T).callOp v m.world).1.2
            ∧ r = ((env.typeOf T).callOp v m.world).2
            ∧ m1.trace = m.trace ++ [Event.call t a, Event.invoked T o a]) := by
  rcases Thunk.state_cases th hst with rfl | ⟨T, v, o, rfl⟩
  · refine ⟨.noop, _, _, rfl, by simp [Thunk.operator_call, ha, vtable_call],
      Thunk.operator_call_empty env a m ha, by simp [Event.isDispatch], fun _ _ => rfl,
      ⟨_, ha, rfl⟩, rfl, fun _ => ⟨ha, rfl, rfl, rfl⟩, ?_⟩
    intro T v o h
    simp at h
  · refine ⟨.gen T, _, _, rfl, by simp [Thunk.operator_call, ha, vtable_call],
      Thunk.operator_call_bound env a m T v o ha, by simp [Event.isDispatch],
      fun b hb => Function.update_noteq hb _ _, ⟨_, Function.update_same _ _ _, rfl⟩, rfl,
      fun h => by simp at h, ?_⟩
    intro T1 v1 o1 h
    simp only [Option.some.injEq, LiveObj.mk.injEq] at h
    obtain ⟨rfl, rfl, rfl⟩ := h
    exact ⟨Function.update_same _ _ _, rfl, rfl, rfl⟩

/-- Witness for C14 on the sample state: container 1 holds a class 2 callable
with state 7. -/
theorem operator_call_exact_witness :
    ∃ t m1 r, (some (TableRef.gen (.cls 2))) = some t
      ∧ Thunk.operator_call demoEnv 1 demoMachine
          = (demoEnv.vtable t).call 1 (demoMachine.emit (Event.call t 1))
      ∧ Thunk.operator_call demoEnv 1 demoMachine = .ok (m1, r)
      ∧ (m1.trace.drop demoMachine.trace.length).filter Event.isDispatch = [Event.call t 1]
      ∧ (∀ b, b ≠ 1 → m1.heap b = demoMachine.heap b)
      ∧ (∃ th1, m1.heap 1 = some th1 ∧ th1._vtable = some (.gen (.cls 2)))
      ∧ m1.nextOid = demoMachine.nextOid
      ∧ ((some (LiveObj.mk (.cls 2) 7 1)) = none →
          m1.heap 1 = some { _storage := some ⟨.cls 2, 7, 1⟩, _vtable := some (.gen (.cls 2)) }
            ∧ m1.world = demoMachine.world ∧ r = none
            ∧ m1.trace = demoMachine.trace ++ [Event.call t 1])
      ∧ (∀ T v o, (some (LiveObj.mk (.cls 2) 7 1)) = some ⟨T, v, o⟩ →
          m1.heap 1 = some
              { _storage := some ⟨T, ((demoEnv.typeOf T).callOp v demoMachine.world).1.1, o⟩
                _vtable := some (.gen (.cls 2)) }
            ∧ m1.world = ((demoEnv.typeOf T).callOp v demoMachine.world).1.2
            ∧ r = ((demoEnv.typeOf T).callOp v demoMachine.world).2
            ∧ m1.trace = demoMachine.trace ++ [Event.call t 1, Event.invoked T o 1]) :=
  operator_call_exact demoEnv demoMachine 1 _ rfl (by decide)

/-! ## Copy construction and copy assignment -/

/-- C16. From a state in which `source` is `EMPTY` or `BOUND`: copy construction
of a fresh container from `source`, and copy assignment of `source` to any
container that is `EMPTY` or `BOUND` (`source` itself included), succeed, leave
`source` with the table reference and held value it had, and leave the new or
assigned container with the table reference of `source`. -/
theorem copy_leaves_source {V W ε : Type} (env : Env V W ε) (m : Machine V W) (source : Addr)
    (src : Thunk V) (hs : m.heap source = some src) (hsw : src.state ≠ none) :
    (∀ a, m.heap a = none →
        ∃ m1 th, Thunk.ctor_copy env a source m = .ok m1
          ∧ m1.heap source = some src
          ∧ m1.heap a = some th ∧ th._vtable = src._vtable)
      ∧ (∀ a tgt, m.heap a = some tgt → tgt.state ≠ none →
          ∃ m1 th, Thunk.operator_assign env a source m = .ok m1
            ∧ m1.heap source = some src
            ∧ m1.heap a = some th ∧ th._vtable = src._vtable) := by
  constructor
  · intro a ha
    have hne : source ≠ a := fun e => by rw [e, ha] at hs; exact Option.noConfusion hs
    rcases Thunk.state_cases src hsw with rfl | ⟨U, u, p, rfl⟩
    · rw [Thunk.ctor_copy_empty env a source m ha hs]
      exact ⟨_, _, rfl, by simp [hne, hs], Function.update_same _ _ _, rfl⟩
    · rw [Thunk.ctor_copy_bound env a source m U u p ha hs]
      exact ⟨_, _, rfl, by simp [hne, hs], Function.update_same _ _ _, rfl⟩
  · intro a tgt ha htw
    by_cases hab : a = source
    · subst hab
      rw [ha] at hs
      cases hs
      exact ⟨m, _, by simp [Thunk.operator_assign], ha, ha, rfl⟩
    · have hne : source ≠ a := fun e => hab e.symm
      rcases Thunk.state_cases tgt htw with rfl | ⟨T, v, o, rfl⟩
      · rcases Thunk.state_cases src hsw with rfl | ⟨U, u, p, rfl⟩
        · rw [Thunk.operator_assign_ee env a source m hab ha hs]
          exact ⟨_, _, rfl, by simp [hne, hs], Function.update_same _ _ _, rfl⟩
        · rw [Thunk.operator_assign_eb env a source m U u p hab ha hs]
          exact ⟨_, _, rfl, by simp [hne, hs], Function.update_same _ _ _, rfl⟩
      · rcases Thunk.state_cases src hsw with rfl | ⟨U, u, p, rfl⟩
        · rw [Thunk.operator_assign_be env a source m T v o hab ha hs]
          exact ⟨_, _, rfl, by simp [hne, hs], Function.update_same _ _ _, rfl⟩
        · rw [Thunk.operator_assign_bb env a source m T U v u o p hab ha hs]
          exact ⟨_, _, rfl, by simp [hne, hs], Function.update_same _ _ _, rfl⟩

/-- Witness for C16 on the sample state, with its bound container 0 as source. -/
theorem copy_leaves_source_witness :
    (∀ a, demoMachine.heap a = none →
        ∃ m1 th, Thunk.ctor_copy demoEnv a 0 demoMachine = .ok m1
          ∧ m1.heap 0 = some { _storage := some ⟨.cls 0, 5, 0⟩, _vtable := some (.gen (.cls 0)) }
          ∧ m1.heap a = some th ∧ th._vtable = some (.gen (.cls 0)))
      ∧ (∀ a tgt, demoMachine.heap a = some tgt → tgt.state ≠ none →
          ∃ m1 th, Thunk.operator_assign demoEnv a 0 demoMachine = .ok m1
            ∧ m1.heap 0 = some { _storage := some ⟨.cls 0, 5, 0⟩, _vtable := some (.gen (.cls 0)) }
            ∧ m1.heap a = some th ∧ th._vtable = some (.gen (.cls 0))) :=
  copy_leaves_source demoEnv demoMachine 0 _ rfl (by decide)

/-- C15 fails as stated: in the second sample program two instances are alive,
numbered 1 (container 0) and 2 (container 1).  After the assignment of container
1 to container 0, container 0 holds the value 2: the destructor of its old value
lowered the instance count before the copy was made.  A fresh container
copy-constructed from container 1 in the same state holds the value 3. -/
theorem assign_differs_from_fresh_copy :
    ∃ m1 m2, Thunk.operator_assign trackedEnv 0 1 trackedMachine = .ok m1
      ∧ Thunk.ctor_copy trackedEnv 2 1 trackedMachine = .ok m2
      ∧ m1.heap 0 = some { _storage := some ⟨.cls 0, 2, 2⟩, _vtable := some (.gen (.cls 0)) }
      ∧ m2.heap 2 = some { _storage := some ⟨.cls 0, 3, 2⟩, _vtable := some (.gen (.cls 0)) }
      ∧ m1.heap 0 ≠ m2.heap 2 :=
  ⟨_, _, rfl, rfl, rfl, rfl, by decide⟩

/-- C15, amended. For distinct containers `target` and `source`, each `EMPTY` or
`BOUND`, and a fresh address `c`: the assignment succeeds, and the target ends
with exactly the table reference and held object that copy construction at `c`
from `source` yields in the state left by the assignment's destroy step, with the
same world.  Against copy construction at `c` from `source` in the state before
the assignment: the table reference is always the same, and so is the whole
container when the target was `EMPTY`, when the source is `EMPTY`, or when the
copy constructor of the source's type yields the same value in the world before
and the world after the destruction of the target's old value. -/
theorem assign_as_fresh_copy {V W ε : Type} (env : Env V W ε) (m : Machine V W)
    (target source c : Addr) (tgt src : Thunk V) (hne : target ≠ source)
    (ht : m.heap target = some tgt) (hs : m.heap source = some src)
    (htw : tgt.state ≠ none) (hsw : src.state ≠ none) (hc : m.heap c = none) :
    ∃ m1 m2 m3 m4 th th4,
      Thunk.operator_assign_destroy env target m = .ok m1
      ∧ Thunk.operator_assign env target source m = .ok m2
      ∧ Thunk.ctor_copy env c source m1 = .ok m3
      ∧ Thunk.ctor_copy env c source m = .ok m4
      ∧ m2.heap target = some th ∧ m3.heap c = some th ∧ m3.world = m2.world
      ∧ m4.heap c = some th4 ∧ th4._vtable = th._vtable
      ∧ (tgt.state = some .EMPTY → th4 = th)
      ∧ (src.state = some .EMPTY → th4 = th)
      ∧ (∀ U u p, src._storage = some ⟨U, u, p⟩ →
          ((env.typeOf U).copyCtor u m1.world).1 = ((env.typeOf U).copyCtor u m.world).1 →
          th4 = th) := by
  have hne2 : source ≠ target := fun e => hne e.symm
  have hct : c ≠ target := fun e => by rw [e, ht] at hc; exact Option.noConfusion hc
  rcases Thunk.state_cases tgt htw with rfl | ⟨T, v, o, rfl⟩
  · have hd := Thunk.operator_assign_destroy_empty env target m ht
    rcases Thunk.state_cases src hsw with rfl | ⟨U, u, p, rfl⟩
    · exact ⟨_, _, _, _, _, _, hd, Thunk.operator_assign_ee env target source m hne ht hs,
        Thunk.ctor_copy_empty env c source _ hc hs, Thunk.ctor_copy_empty env c source m hc hs,
        Function.update_same _ _ _, Function.update_same _ _ _, rfl,
        Function.update_same _ _ _, rfl, fun _ => rfl, fun _ => rfl, fun _ _ _ _ _ => rfl⟩
    · exact ⟨_, _, _, _, _, _, hd, Thunk.operator_assign_eb env target source m U u p hne ht hs,
        Thunk.ctor_copy_bound env c source _ U u p hc hs,
        Thunk.ctor_copy_bound env c source m U u p hc hs,
        Function.update_same _ _ _, Function.update_same _ _ _, rfl,
        Function.update_same _ _ _, rfl, fun _ => rfl, fun _ => rfl, fun _ _ _ _ _ => rfl⟩
  · have hd := Thunk.operator_assign_destroy_bound env target m T v o ht
    rcases Thunk.state_cases src hsw with rfl | ⟨U, u, p, rfl⟩
    · exact ⟨_, _, _, _, _, _, hd, Thunk.operator_assign_be env target source m T v o hne ht hs,
        Thunk.ctor_copy_empty env c source _ (by simp [hct, hc]) (by simp [hne2, hs]),
        Thunk.ctor_copy_empty env c source m hc hs,
        Function.update_same _ _ _, Function.update_same _ _ _, rfl,
        Function.update_same _ _ _, rfl, fun _ => rfl, fun _ => rfl, fun _ _ _ _ _ => rfl⟩
    · refine ⟨_, _, _, _, _, _, hd,
        Thunk.operator_assign_bb env target source m T U v u o p hne ht hs,
        Thunk.ctor_copy_bound env c source _ U u p (by simp [hct, hc]) (by simp [hne2, hs]),
        Thunk.ctor_copy_bound env c source m U u p hc hs,
        Function.update_same _ _ _, Function.update_same _ _ _, rfl,
        Function.update_same _ _ _, rfl, fun h => by simp [Thunk.state] at h,
        fun h => by simp [Thunk.state] at h, ?_⟩
      intro U1 u1 p1 h heq
      simp only [Option.some.injEq, LiveObj.mk.injEq] at h
      obtain ⟨rfl, rfl, rfl⟩ := h
      simp only at heq
      simp [heq]

/-- Witness for C15 (amended) on the sample state: container 1 is assigned to
container 0, and container 5 is the fresh one. -/
theorem assign_as_fresh_copy_witness :
    ∃ m1 m2 m3 m4 th th4,
      Thunk.operator_assign_destroy demoEnv 0 demoMachine = .ok m1
      ∧ Thunk.operator_assign demoEnv 0 1 demoMachine = .ok m2
      ∧ Thunk.ctor_copy demoEnv 5 1 m1 = .ok m3
      ∧ Thunk.ctor_copy demoEnv 5 1 demoMachine = .ok m4
      ∧ m2.heap 0 = some th ∧ m3.heap 5 = some th ∧ m3.world = m2.world
      ∧ m4.heap 5 = some th4 ∧ th4._vtable = th._vtable
      ∧ ((Thunk.mk (some ⟨.cls 0, 5, 0⟩) (some (.gen (.cls 0)))).state = some .EMPTY → th4 = th)
      ∧ ((Thunk.mk (some ⟨.cls 2, 7, 1⟩) (some (.gen (.cls 2)))).state = some .EMPTY → th4 = th)
      ∧ (∀ U u p, (some (LiveObj.mk (.cls 2) 7 1)) = some ⟨U, u, p⟩ →
          ((demoEnv.typeOf U).copyCtor u m1.world).1
            = ((demoEnv.typeOf U).copyCtor u demoMachine.world).1 →
          th4 = th) :=
  assign_as_fresh_copy demoEnv demoMachine 0 1 5 _ _ (by decide) rfl rfl (by decide)
    (by decide) rfl

/-! ## Copy assignment when a copy constructor or a destructor fails -/

theorem Throwing.assign_bb_dtor_fails {V W ε : Type} (env : ThrowingEnv V W ε)
    (this other : Addr) (m : Machine V W) (T : TypeKey) (v : V) (o : Nat) (e : ε)
    (hne : this ≠ other)
    (ht : m.heap this = some { _storage := some ⟨T, v, o⟩, _vtable := some (.gen T) })
    (hd : (env.typeOf T).dtorFails v m.world = some e) :
    Throwing.Thunk.operator_assign env this other m
      = .ok ({ heap := Function.update m.heap this
                 (some { _storage := none, _vtable := some (.gen T) })
               world := (env.typeOf T).dtor v m.world
               trace := m.trace ++ [Event.destroy (.gen T) this, Event.destructed T o this]
               nextOid := m.nextOid }, some e) := by
  simp [Throwing.Thunk.operator_assign, Throwing.vtable_destroy, ThrowingEnv.vtable,
    Throwing.ThunkVTableGenerator.destroy, Machine.emit, hne, ht, hd]

theorem Throwing.assign_bb_copy_fails {V W ε : Type} (env : ThrowingEnv V W ε)
    (this other : Addr) (m : Machine V W) (T U : TypeKey) (v u : V) (o p : Nat) (e : ε)
    (hne : this ≠ other)
    (ht : m.heap this = some { _storage := some ⟨T, v, o⟩, _vtable := some (.gen T) })
    (hs : m.heap other = some { _storage := some ⟨U, u, p⟩, _vtable := some (.gen U) })
    (hd : (env.typeOf T).dtorFails v m.world = none)
    (hc : (env.typeOf U).copyFails u ((env.typeOf T).dtor v m.world) = some e) :
    Throwing.Thunk.operator_assign env this other m
      = .ok ({ heap := Function.update m.heap this
                 (some { _storage := none, _vtable := some (.gen T) })
               world := ((env.typeOf U).copyCtor u ((env.typeOf T).dtor v m.world)).2
               trace := m.trace ++ [Event.destroy (.gen T) this, Event.destructed T o this,
                 Event.copy (.gen U) this other]
               nextOid := m.nextOid }, some e) := by
  have hne2 : other ≠ this := fun h => hne h.symm
  simp [Throwing.Thunk.operator_assign, Throwing.vtable_destroy, Throwing.vtable_copy,
    ThrowingEnv.vtable, Throwing.ThunkVTableGenerator.destroy,
    Throwing.ThunkVTableGenerator.copy, Machine.emit, hne, hne2, ht, hs, hd, hc]

theorem Throwing.assign_bb_succeeds {V W ε : Type} (env : ThrowingEnv V W ε)
    (this other : Addr) (m : Machine V W) (T U : TypeKey) (v u : V) (o p : Nat)
    (hne : this ≠ other)
    (ht : m.heap this = some { _storage := some ⟨T, v, o⟩, _vtable := some (.gen T) })
    (hs : m.heap other = some { _storage := some ⟨U, u, p⟩, _vtable := some (.gen U) })
    (hd : (env.typeOf T).dtorFails v m.world = none)
    (hc : (env.typeOf U).copyFails u ((env.typeOf T).dtor v m.world) = none) :
    Throwing.Thunk.operator_assign env this other m
      = .ok ({ heap := Function.update m.heap this
                 (some { _storage := some ⟨U,
                           ((env.typeOf U).copyCtor u ((env.typeOf T).dtor v m.world)).1,
                           m.nextOid⟩
                         _vtable := some (.gen U) })
               world := ((env.typeOf U).copyCtor u ((env.typeOf T).dtor v m.world)).2
               trace := m.trace ++ [Event.destroy (.gen T) this, Event.destructed T o this,
                 Event.copy (.gen U) this other, Event.constructed U m.nextOid this]
               nextOid := m.nextOid + 1 }, none) := by
  have hne2 : other ≠ this := fun h => hne h.symm
  simp [Throwing.Thunk.operator_assign, Throwing.vtable_destroy, Throwing.vtable_copy,
    ThrowingEnv.vtable, Throwing.ThunkVTableGenerator.destroy,
    Throwing.ThunkVTableGenerator.copy, Machine.emit, clobberEvents, hne, hne2, ht, hs, hd, hc]

/-! ## The state machine -/

/-- C8 fails as stated: in the third sample program a class 0 value is wrapped
in container 0 and a value of the other class in container 1, so both are
`BOUND`.  The copy assignment of container 1 to container 0 destroys the value
of container 0, then the copy constructor fails: the assignment is left by that
failure, and container 0 holds no value under its old table.  It is not `BOUND`
(and not `EMPTY`). -/
theorem assign_leaves_no_value :
    ∃ m m1,
      Throwing.run throwEnv [.ctor_callable 0 5 0, .ctor_callable 1 0 1]
          (Machine.init { counter := 0, dtors := 0 }) = .ok m
      ∧ (m.heap 0).bind Thunk.state = some (.BOUND (.cls 0))
      ∧ (m.heap 1).bind Thunk.state = some (.BOUND (.cls 1))
      ∧ Throwing.Thunk.operator_assign throwEnv 0 1 m = .ok (m1, some "copy failed")
      ∧ m1.heap 0 = some { _storage := none, _vtable := some (.gen (.cls 0)) }
      ∧ (m1.heap 0).bind Thunk.state = none :=
  ⟨_, _, rfl, rfl, rfl, rfl, rfl, rfl⟩

/-- C8, amended. A container `t` in state `BOUND T` stays `BOUND T` under
invocation, under copy construction from it, under copy assignment from it and
under self-assignment, whether or not these fail.  Copy assignment to it from a
`BOUND U` container ends without failure exactly when neither the destructor of
its old value nor the copy constructor of the source's value fails, and then
leaves it `BOUND U`; otherwise the failure leaves it with no object under its old
table, neither `EMPTY` nor `BOUND`.  In none of these cases is it `EMPTY`. -/
theorem bound_transitions {V W ε : Type} (env : ThrowingEnv V W ε) (m : Machine V W)
    (t : Addr) (T : TypeKey) (v : V) (o : Nat)
    (ht : m.heap t = some { _storage := some ⟨T, v, o⟩, _vtable := some (.gen T) }) :
    (∃ m1 r th1, Throwing.Thunk.operator_call env t m = .ok (m1, r)
        ∧ m1.heap t = some th1 ∧ th1.state = some (.BOUND T))
      ∧ (∀ b, m.heap b = none →
          ∃ m1 r, Throwing.Thunk.ctor_copy env b t m = .ok (m1, r)
            ∧ m1.heap t = m.heap t)
      ∧ (∀ b tb, b ≠ t → m.heap b = some tb → tb.state ≠ none →
          ∃ m1 r, Throwing.Thunk.operator_assign env b t m = .ok (m1, r)
            ∧ m1.heap t = m.heap t)
      ∧ Throwing.Thunk.operator_assign env t t m = .ok (m, none)
      ∧ (∀ s U u p, s ≠ t →
          m.heap s = some { _storage := some ⟨U, u, p⟩, _vtable := some (.gen U) } →
          ∃ m1 r th1, Throwing.Thunk.operator_assign env t s m = .ok (m1, r)
            ∧ m1.heap t = some th1
            ∧ th1.state ≠ some .EMPTY
            ∧ (r = none ↔ (env.typeOf T).dtorFails v m.world = none
                ∧ (env.typeOf U).copyFails u ((env.typeOf T).dtor v m.world) = none)
            ∧ (r = none → th1.state = some (.BOUND U))
            ∧ (r ≠ none → th1 = { _storage := none, _vtable := some (.gen T) }
                ∧ th1.state = none)) := by
  refine ⟨?_, ?_, ?_, ?_, ?_⟩
  · simp [Throwing.Thunk.operator_call, Throwing.vtable_call, ThrowingEnv.vtable,
      ThunkVTableGenerator.call, Machine.emit, ht, Thunk.state]
  · intro b hb
    have hbt : b ≠ t := fun h => by rw [h, ht] at hb; exact Option.noConfusion hb
    have htb : t ≠ b := fun h => hbt h.symm
    cases hc : (env.typeOf T).copyFails v m.world <;>
      simp [Throwing.Thunk.ctor_copy, Throwing.vtable_copy, ThrowingEnv.vtable,
        Throwing.ThunkVTableGenerator.copy, Machine.emit, Machine.store, clobberEvents, ht,
        hb, hbt, htb, hc]
  · intro b tb hbt hb hst
    have htb : t ≠ b := fun h => hbt h.symm
    rcases Thunk.state_cases tb hst with rfl | ⟨U, u, p, rfl⟩
    · cases hc : (env.typeOf T).copyFails v m.world <;>
        simp [Throwing.Thunk.operator_assign, Throwing.vtable_destroy, Throwing.vtable_copy,
          ThrowingEnv.vtable, NoopTable.destroy, Throwing.ThunkVTableGenerator.copy,
          Machine.emit, Machine.store, clobberEvents, ht, hb, hbt, htb, hc]
    · cases hd : (env.typeOf U).dtorFails u m.world
      · cases hc : (env.typeOf T).copyFails v ((env.typeOf U).dtor u m.world) <;>
          simp [Throwing.Thunk.operator_assign, Throwing.vtable_destroy,
            Throwing.vtable_copy, ThrowingEnv.vtable, Throwing.ThunkVTableGenerator.destroy,
            Throwing.ThunkVTableGenerator.copy, Machine.emit, Machine.store, clobberEvents,
            ht, hb, hbt, htb, hd, hc]
      · simp [Throwing.Thunk.operator_assign, Throwing.vtable_destroy,
          ThrowingEnv.vtable, Throwing.ThunkVTableGenerator.destroy, Machine.emit, ht, hb,
          hbt, htb, hd]
  · simp [Throwing.Thunk.operator_assign]
  · intro s U u p hst hs
    have hts : t ≠ s := fun h => hst h.symm
    cases hd : (env.typeOf T).dtorFails v m.world with
    | some e =>
      rw [Throwing.assign_bb_dtor_fails env t s m T v o e hts ht hd]
      exact ⟨_, _, _, rfl, Function.update_same _ _ _, by simp [Thunk.state], by simp,
        fun h => by simp at h, fun _ => ⟨rfl, by simp [Thunk.state]⟩⟩
    | none =>
      cases hc : (env.typeOf U).copyFails u ((env.typeOf T).dtor v m.world) with
      | some e =>
        rw [Throwing.assign_bb_copy_fails env t s m T U v u o p e hts ht hs hd hc]
        exact ⟨_, _, _, rfl, Function.update_same _ _ _, by simp [Thunk.state], by simp,
          fun h => by simp at h, fun _ => ⟨rfl, by simp [Thunk.state]⟩⟩
      | none =>
        rw [Throwing.assign_bb_succeeds env t s m T U v u o p hts ht hs hd hc]
        exact ⟨_, _, _, rfl, Function.update_same _ _ _, by simp [Thunk.state], by simp,
          fun _ => by simp [Thunk.state], fun h => absurd rfl h⟩

/-- Witness for C8 (amended): the first sample state under the third sample
program.  Container 0 is bound to a class 0 value; container 1 holds the value 7
of a class whose copy constructor fails on it. -/
theorem bound_transitions_witness :
    (∃ m1 r th1, Throwing.Thunk.operator_call throwEnv 0 demoMachine = .ok (m1, r)
        ∧ m1.heap 0 = some th1 ∧ th1.state = some (.BOUND (.cls 0)))
      ∧ (∀ b, demoMachine.heap b = none →
          ∃ m1 r, Throwing.Thunk.ctor_copy throwEnv b 0 demoMachine = .ok (m1, r)
            ∧ m1.heap 0 = demoMachine.heap 0)
      ∧ (∀ b tb, b ≠ 0 → demoMachine.heap b = some tb → tb.state ≠ none →
          ∃ m1 r, Throwing.Thunk.operator_assign throwEnv b 0 demoMachine = .ok (m1, r)
            ∧ m1.heap 0 = demoMachine.heap 0)
      ∧ Throwing.Thunk.operator_assign throwEnv 0 0 demoMachine = .ok (demoMachine, none)
      ∧ (∀ s U u p, s ≠ 0 →
          demoMachine.heap s = some { _storage := some ⟨U, u, p⟩, _vtable := some (.gen U) } →
          ∃ m1 r th1, Throwing.Thunk.operator_assign throwEnv 0 s demoMachine = .ok (m1, r)
            ∧ m1.heap 0 = some th1
            ∧ th1.state ≠ some .EMPTY
            ∧ (r = none ↔ (throwEnv.typeOf (.cls 0)).dtorFails 5 demoMachine.world = none
                ∧ (throwEnv.typeOf U).copyFails u
                    ((throwEnv.typeOf (.cls 0)).dtor 5 demoMachine.world) = none)
            ∧ (r = none → th1.state = some (.BOUND U))
            ∧ (r ≠ none → th1 = { _storage := none, _vtable := some (.gen (.cls 0)) }
                ∧ th1.state = none)) :=
  bound_transitions throwEnv demoMachine 0 (.cls 0) 5 0 rfl

/-! ## A run without failing copies and destructors is a run of the plain semantics -/

theorem ThrowingEnv.plain_typeOf {V W ε : Type} (env : ThrowingEnv V W ε) (T : TypeKey) :
    env.plain.typeOf T = (env.typeOf T).plain := by
  cases T <;> rfl

theorem Throwing.vtable_call_plain {V W ε : Type} (env : ThrowingEnv V W ε)
    (p : Option TableRef) (a : Addr) (m : Machine V W) :
    Throwing.vtable_call env p a m = eq.vtable_call env.plain p a m := by
  cases p with
  | none => rfl
  | some t => cases t <;> rfl

theorem Throwing.vtable_destroy_refines {V W ε : Type} (env : ThrowingEnv V W ε)
    (p : Option TableRef) (a : Addr) (m : Machine V W) :
    (∀ f, Throwing.vtable_destroy env p a m = .error f →
        eq.vtable_destroy env.plain p a m = .error f)
      ∧ ∀ m1 r, Throwing.vtable_destroy env p a m = .ok (m1, r) →
          eq.vtable_destroy env.plain p a m = .ok m1 := by
  cases p with
  | none => simp [Throwing.vtable_destroy, eq.vtable_destroy]
  | some t =>
    cases t with
    | noop =>
      simp only [Throwing.vtable_destroy, eq.vtable_destroy, ThrowingEnv.vtable, Env.vtable,
        NoopTable.destroy, Machine.emit]
      cases h : m.heap a <;> simp
    | gen T =>
      simp only [Throwing.vtable_destroy, eq.vtable_destroy, ThrowingEnv.vtable, Env.vtable,
        Throwing.ThunkVTableGenerator.destroy, eq.ThunkVTableGenerator.destroy, Machine.emit]
      cases h : m.heap a with
      | none => simp
      | some th =>
        obtain ⟨st, vt⟩ := th
        cases st with
        | none => simp
        | some obj =>
          by_cases hty : obj.ty = T
          · simp [hty, ThrowingEnv.plain_typeOf, ThrowingCallable.plain]
          · simp [hty]

theorem Throwing.vtable_copy_refines {V W ε : Type} (env : ThrowingEnv V W ε)
    (p : Option TableRef) (a b : Addr) (m : Machine V W) :
    (∀ f, Throwing.vtable_copy env p a b m = .error f →
        eq.vtable_copy env.plain p a b m = .error f)
      ∧ ∀ m1, Throwing.vtable_copy env p a b m = .ok (m1, none) →
          eq.vtable_copy env.plain p a b m = .ok m1 := by
  cases p with
  | none => simp [Throwing.vtable_copy, eq.vtable_copy]
  | some t =>
    cases t with
    | noop =>
      simp only [Throwing.vtable_copy, eq.vtable_copy, ThrowingEnv.vtable, Env.vtable,
        NoopTable.copy, Machine.emit]
      cases h : m.heap a <;> cases h2 : m.heap b <;> simp
    | gen T =>
      simp only [Throwing.vtable_copy, eq.vtable_copy, ThrowingEnv.vtable, Env.vtable,
        Throwing.ThunkVTableGenerator.copy, eq.ThunkVTableGenerator.copy, Machine.emit]
      cases h : m.heap a with
      | none => simp
      | some d =>
        cases h2 : m.heap b with
        | none => simp
        | some sr =>
          obtain ⟨st, vt⟩ := sr
          cases st with
          | none => simp
          | some obj =>
            by_cases hty : obj.ty = T
            · cases hc : (env.typeOf T).copyFails obj.val m.world <;>
                simp [hty, hc, ThrowingEnv.plain_typeOf, ThrowingCallable.plain]
            · simp [hty]

theorem Throwing.wrap_refines {V W ε : Type} (env : ThrowingEnv V W ε) (T : TypeKey) (f : V)
    (a : Addr) (m : Machine V W) :
    (∀ e, Throwing.Thunk.wrap env T f a m = .error e →
        eq.Thunk.wrap env.plain T f a m = .error e)
      ∧ ∀ m1, Throwing.Thunk.wrap env T f a m = .ok (m1, none) →
          eq.Thunk.wrap env.plain T f a m = .ok m1 := by
  simp only [Throwing.Thunk.wrap, eq.Thunk.wrap, ThrowingEnv.plain_typeOf]
  by_cases hfit : (env.typeOf T).size ≤ env.BufferSize
  · cases h : m.heap a with
    | some th => simp [hfit, ThrowingCallable.plain, ThrowingEnv.plain]
    | none =>
      cases hc : (env.typeOf T).copyFails f m.world <;>
        simp [hfit, ThrowingCallable.plain, ThrowingEnv.plain]
  · simp [hfit, ThrowingCallable.plain, ThrowingEnv.plain]

theorem Throwing.ctor_copy_refines {V W ε : Type} (env : ThrowingEnv V W ε) (a b : Addr)
    (m : Machine V W) :
    (∀ e, Throwing.Thunk.ctor_copy env a b m = .error e →
        eq.Thunk.ctor_copy env.plain a b m = .error e)
      ∧ ∀ m1, Throwing.Thunk.ctor_copy env a b m = .ok (m1, none) →
          eq.Thunk.ctor_copy env.plain a b m = .ok m1 := by
  simp only [Throwing.Thunk.ctor_copy, eq.Thunk.ctor_copy]
  cases h : m.heap a with
  | some th => simp
  | none =>
    cases h2 : m.heap b with
    | none => simp
    | some src =>
      simp only []
      have hr := Throwing.vtable_copy_refines env src._vtable a b
        (m.store a (some { _storage := none, _vtable := none }))
      cases hc : Throwing.vtable_copy env src._vtable a b
          (m.store a (some { _storage := none, _vtable := none })) with
      | error f => simpa using hr.1 f hc
      | ok r =>
        obtain ⟨m2, r2⟩ := r
        cases r2 with
        | none => simpa using hr.2 m2 hc
        | some e => simp

theorem Throwing.dtor_refines {V W ε : Type} (env : ThrowingEnv V W ε) (a : Addr)
    (m : Machine V W) :
    (∀ e, Throwing.Thunk.dtor env a m = .error e → eq.Thunk.dtor env.plain a m = .error e)
      ∧ ∀ m1 r, Throwing.Thunk.dtor env a m = .ok (m1, r) →
          eq.Thunk.dtor env.plain a m = .ok m1 := by
  simp only [Throwing.Thunk.dtor, eq.Thunk.dtor]
  cases h : m.heap a with
  | none => simp
  | some th =>
    simp only []
    have hr := Throwing.vtable_destroy_refines env th._vtable a m
    cases hc : Throwing.vtable_destroy env th._vtable a m with
    | error f => simp [hr.1 f hc]
    | ok r =>
      obtain ⟨m2, r2⟩ := r
      simp only [hr.2 m2 r2 hc]
      constructor
      · intro e he; cases he
      · intro m1 r he
        cases he
        rfl

theorem Throwing.operator_assign_refines {V W ε : Type} (env : ThrowingEnv V W ε)
    (a b : Addr) (m : Machine V W) :
    (∀ e, Throwing.Thunk.operator_assign env a b m = .error e →
        eq.Thunk.operator_assign env.plain a b m = .error e)
      ∧ ∀ m1, Throwing.Thunk.operator_assign env a b m = .ok (m1, none) →
          eq.Thunk.operator_assign env.plain a b m = .ok m1 := by
  simp only [Throwing.Thunk.operator_assign, eq.Thunk.operator_assign]
  by_cases hab : a = b
  · simp [hab]
  · simp only [hab, if_false]
    cases h : m.heap a with
    | none => simp
    | some th =>
      simp only []
      have hr := Throwing.vtable_destroy_refines env th._vtable a m
      cases hc : Throwing.vtable_destroy env th._vtable a m with
      | error f => simp [hr.1 f hc]
      | ok r =>
        obtain ⟨m2, r2⟩ := r
        simp only [hr.2 m2 r2 hc]
        cases r2 with
        | some e => simp
        | none =>
          simp only []
          cases h2 : m2.heap b with
          | none => simp
          | some src => exact Throwing.vtable_copy_refines env src._vtable a b m2

theorem Throwing.step_refines {V W ε : Type} (env : ThrowingEnv V W ε) (op : Op V)
    (m : Machine V W) :
    (∀ e, Throwing.step env op m = .error e → eq.step env.plain op m = .error e)
      ∧ ∀ m1 r, Throwing.step env op m = .ok (m1, r) → (op.isCall = true ∨ r = none) →
          eq.step env.plain op m = .ok m1 := by
  cases op with
  | ctor_default a =>
    simp only [Throwing.step, eq.step]
    cases Thunk.ctor_default a m <;> simp
  | ctor_callable n f a =>
    have hr := Throwing.wrap_refines env (.cls n) f a m
    refine ⟨hr.1, fun m1 r h hq => ?_⟩
    rcases hq with hq | hq
    · simp [Op.isCall] at hq
    · subst hq
      exact hr.2 m1 h
  | ctor_function f a =>
    have hr := Throwing.wrap_refines env .fnptr f a m
    refine ⟨hr.1, fun m1 r h hq => ?_⟩
    rcases hq with hq | hq
    · simp [Op.isCall] at hq
    · subst hq
      exact hr.2 m1 h
  | ctor_copy a b =>
    have hr := Throwing.ctor_copy_refines env a b m
    refine ⟨hr.1, fun m1 r h hq => ?_⟩
    rcases hq with hq | hq
    · simp [Op.isCall] at hq
    · subst hq
      exact hr.2 m1 h
  | operator_assign a b =>
    have hr := Throwing.operator_assign_refines env a b m
    refine ⟨hr.1, fun m1 r h hq => ?_⟩
    rcases hq with hq | hq
    · simp [Op.isCall] at hq
    · subst hq
      exact hr.2 m1 h
  | operator_call a =>
    have hc : Throwing.Thunk.operator_call env a m = eq.Thunk.operator_call env.plain a m := by
      simp only [Throwing.Thunk.operator_call, eq.Thunk.operator_call]
      cases m.heap a with
      | none => rfl
      | some th => exact Throwing.vtable_call_plain env th._vtable a m
    simp only [Throwing.step, eq.step, hc]
    cases eq.Thunk.operator_call env.plain a m with
    | error f => simp
    | ok r =>
      refine ⟨fun e he => ?_, fun m1 r1 he _ => ?_⟩
      · cases he
      · cases he
        rfl
  | dtor a =>
    have hr := Throwing.dtor_refines env a m
    exact ⟨hr.1, fun m1 r h _ => hr.2 m1 r h⟩

theorem Throwing.run_of_quiet {V W ε : Type} (env : ThrowingEnv V W ε) (ops : List (Op V))
    (m : Machine V W) (hq : Throwing.quiet env ops m = true) :
    Throwing.run env ops m = eq.run env.plain ops m := by
  induction ops generalizing m with
  | nil => rfl
  | cons op ops ih =>
    have hr := Throwing.step_refines env op m
    simp only [Throwing.run, eq.run]
    simp only [Throwing.quiet] at hq
    cases hs : Throwing.step env op m with
    | error f => simp [hr.1 f hs]
    | ok r =>
      obtain ⟨m1, r1⟩ := r
      simp only [hs, Bool.and_eq_true, Bool.or_eq_true, Option.isNone_iff_eq_none] at hq
      simp only [hr.2 m1 r1 hs hq.1]
      exact ih m1 hq.2

/-! ## Destruction, exactly once -/

/-- C10 fails as stated: in the third sample program a class 0 value is wrapped
in container 0 and a value of the other class in container 1.  The assignment of
container 1 to container 0 destructs the object of container 0 and is then left
by the failure of the copy constructor; container 0 keeps its old table over the
dead buffer.  When container 0 is destructed, `destroy` of that table runs on
the slot whose object was already destructed: undefined behaviour.  Each
container of the sequence is destructed once. -/
theorem destroy_on_dead_slot :
    ∃ m0 m1,
      Throwing.run throwEnv [.ctor_callable 0 5 0, .ctor_callable 1 0 1]
          (Machine.init { counter := 0, dtors := 0 }) = .ok m0
      ∧ Throwing.Thunk.operator_assign throwEnv 0 1 m0 = .ok (m1, some "copy failed")
      ∧ m1.heap 0 = some { _storage := none, _vtable := some (.gen (.cls 0)) }
      ∧ constructions 0 m1.trace = 1 ∧ destructions 0 m1.trace = 1
      ∧ Throwing.Thunk.dtor throwEnv 0 m1 = .error .undefined
      ∧ Throwing.run throwEnv
          [.ctor_callable 0 5 0, .ctor_callable 1 0 1, .operator_assign 0 1, .dtor 0, .dtor 1]
          (Machine.init { counter := 0, dtors := 0 }) = .error .undefined :=
  ⟨_, _, rfl, rfl, rfl, by decide, by decide, rfl, rfl⟩

/-- C10, amended. For every finite sequence of public operations, run from the
start, along which no copy constructor and no destructor of a wrapped type fails
(invocations may fail): the run never reaches undefined behaviour, so `destroy`
of a generated table never meets a buffer without a live object of its type; at
every state reached no object was destructed twice or without having been
constructed, each identity handed out was constructed once, and the objects
still alive were not destructed; and once every container has been destructed,
every object ever constructed was destructed exactly once. -/
theorem destroyed_exactly_once {V W ε : Type} (env : ThrowingEnv V W ε) (ops : List (Op V))
    (w : W) (hq : Throwing.quiet env ops (Machine.init w) = true) :
    Throwing.run env ops (Machine.init w) ≠ .error .undefined
      ∧ ∀ m, Throwing.run env ops (Machine.init w) = .ok m →
          (∀ o, destructions o m.trace ≤ constructions o m.trace
              ∧ constructions o m.trace ≤ 1)
            ∧ (∀ o, constructions o m.trace = 1 ↔ o < m.nextOid)
            ∧ (∀ a o, slotOf m.heap a = some o →
                constructions o m.trace = 1 ∧ destructions o m.trace = 0)
            ∧ ((∀ a, m.heap a = none) →
                ∀ o, o < m.nextOid →
                  constructions o m.trace = 1 ∧ destructions o m.trace = 1) := by
  rw [Throwing.run_of_quiet env ops (Machine.init w) hq]
  exact plain_run_discipline env.plain ops w

theorem throwEnv_demoOps_heap_empty (m : Machine Nat DemoWorld)
    (h : Throwing.run throwEnv demoOps (Machine.init { counter := 0, dtors := 0 }) = .ok m) :
    ∀ a, m.heap a = none := by
  rw [Throwing.run_of_quiet throwEnv demoOps (Machine.init { counter := 0, dtors := 0 }) rfl] at h
  simp [demoOps, run, step, Thunk.ctor_callable, Thunk.wrap, Thunk.ctor_copy,
    Thunk.ctor_default, Thunk.operator_assign, Thunk.operator_call, Thunk.dtor,
    vtable_destroy, vtable_copy, vtable_call, Env.vtable, ThunkVTableGenerator.destroy,
    ThunkVTableGenerator.copy, ThunkVTableGenerator.call, NoopTable.destroy, NoopTable.copy,
    NoopTable.call, Machine.emit, Machine.store, Machine.init, clobberEvents, Env.typeOf,
    throwEnv, ThrowingEnv.plain, ThrowingCallable.plain, Function.update] at h
  subst h
  intro a
  simp only [Function.update_apply]
  split_ifs <;> rfl

/-- Witness for C10 (amended): the sample client under the third sample program,
whose class 0 never fails.  The run is free of failing copies and destructors,
it ends with every container destructed, three objects were constructed and
each was destructed exactly once. -/
theorem destroyed_exactly_once_witness :
    Throwing.quiet throwEnv demoOps (Machine.init { counter := 0, dtors := 0 }) = true
      ∧ ∃ m, Throwing.run throwEnv demoOps (Machine.init { counter := 0, dtors := 0 }) = .ok m
          ∧ (∀ a, m.heap a = none) ∧ m.nextOid = 3 ∧ m.world.dtors = 3
          ∧ ∀ o, o < m.nextOid →
              constructions o m.trace = 1 ∧ destructions o m.trace = 1 :=
  ⟨rfl, _, rfl, throwEnv_demoOps_heap_empty _ rfl, rfl, rfl,
    ((destroyed_exactly_once throwEnv demoOps { counter := 0, dtors := 0 } rfl).2 _ rfl).2.2.2
      (throwEnv_demoOps_heap_empty _ rfl)⟩

end eq
